import Mathlib

set_option maxRecDepth 4000

/-!
# A shallow embedding of grv's config scanner (`cmd/grv/config_scan.go`)

The Go scanner reads runes from a `bufio.Reader`, tracks a 1-based
`(line, col)` position, supports a single rune of pushback, and produces
`ConfigToken` values one per `Scan` call.

Modelling choices, all matching the Go source and the documented behaviour
of the Go standard library:

* The input stream is a pure, finite list of characters (`input`) together
  with a cursor (`idx`).  This models feeding the scanner from an in-memory
  reader such as `strings.Reader`; genuine I/O failures of an external
  stream are outside the model, so the only reader errors are the ones the
  `bufio` layer itself produces: `io.EOF` surfaced by `Peek` at end of
  stream, and `bufio.ErrInvalidUnreadRune` from `UnreadRune`.
* `bufio.Reader.UnreadRune` errors unless the most recent operation on the
  reader was a successful `ReadRune`; in particular `Peek` invalidates the
  pushback.  The field `canUnreadRune` models `lastRuneSize >= 0`.
* `Peek(1)` returns the first byte of the next rune.  The scanner only ever
  compares that byte against the ASCII characters `-` and `\n`; since the
  leading byte of a multi-byte UTF-8 rune is never an ASCII code, comparing
  the next character against `-`/`\n` is an exact model.
* Go `string`s built by `bytes.Buffer.WriteRune` are modelled by Lean
  `String`s built by `String.push`; `[]rune(str)` is `String.data`.
* Go's `uint` arithmetic on line/column numbers is modelled on `Nat`.  The
  decrements in `unread` are guarded exactly as in the source
  (`pos.line > 1 && pos.col == 1`, else `pos.col--` where `unread` only ever
  follows a successful `read`, after which `col >= 1`), so truncated `Nat`
  subtraction and Go's wrapping subtraction agree on every reachable call.
* Loops are written with an explicit fuel argument (structural recursion);
  every wrapper passes `input.length + 1` which strictly exceeds the number
  of characters any loop can consume, so the `outOfFuel` branch is
  unreachable there (the general theorems below carry the sufficient-fuel
  bound as a hypothesis and never hit it).
-/

namespace GrvConfigScan

/-- `ConfigScannerPos` (config_scan.go:41-45): a position in the input
stream, 1-based `line` and `col`. -/
structure ConfigScannerPos where
  line : Nat
  col : Nat
deriving DecidableEq, Repr

/-- `ConfigTokenType` (config_scan.go:13-28).  The Go type is a bitmask
(`1 << iota`) only so diagnostics can render unions of kinds; individual
tokens always carry exactly one kind, so an enumeration is a faithful model
of the values `Scan` produces. -/
inductive ConfigTokenType where
  | CtkInvalid
  | CtkWord
  | CtkOption
  | CtkWhiteSpace
  | CtkComment
  | CtkShellCommand
  | CtkTerminator
  | CtkEOF
deriving DecidableEq, Repr

/-- `ConfigToken` (config_scan.go:47-55).  `err` holds the message of the
token-level `error` (`nil` becomes `none`). -/
structure ConfigToken where
  tokenType : ConfigTokenType
  value : String
  startPos : ConfigScannerPos
  endPos : ConfigScannerPos
  err : Option String
deriving DecidableEq, Repr

/-- `ConfigScanner` (config_scan.go:57-63) together with the state of its
`bufio.Reader`: the stream (`input`), the read cursor (`idx`), and whether
`UnreadRune` is currently permitted (`canUnreadRune`, i.e. the last
operation on the reader was a successful `ReadRune`). -/
structure ConfigScanner where
  input : List Char
  idx : Nat
  canUnreadRune : Bool
  pos : ConfigScannerPos
  lastCharLineEnd : Bool
  lastLineEndCol : Nat
deriving DecidableEq, Repr

/-- The function-level (hard) errors the scan session can produce:
`io.EOF` escaping from `bufio.Reader.Peek`, `bufio.ErrInvalidUnreadRune`
from `UnreadRune` after an operation other than `ReadRune`, and the
`fmt.Errorf("Invalid string word: %v", str)` of `processStringWord`
(config_scan.go:451).  `outOfFuel` marks loop-fuel exhaustion of the
embedding; the wrappers always pass sufficient fuel. -/
inductive ScanError where
  | ioEOF
  | invalidUnreadRune
  | invalidStringWord (str : String)
  | outOfFuel
deriving DecidableEq, Repr

/-- `NewConfigScanner` (config_scan.go:93-102): position starts at
`{line: 1, col: 0}`; the remaining fields are Go zero values. -/
def NewConfigScanner (input : List Char) : ConfigScanner :=
  { input := input
    idx := 0
    canUnreadRune := false
    pos := { line := 1, col := 0 }
    lastCharLineEnd := false
    lastLineEndCol := 0 }

/-- Go's `unicode.IsSpace`: the Unicode White_Space property
(U+0009..U+000D, U+0020, U+0085, U+00A0, U+1680, U+2000..U+200A, U+2028,
U+2029, U+202F, U+205F, U+3000). -/
def unicodeIsSpace (c : Char) : Bool :=
  let n := c.toNat
  (decide (9 ≤ n) && decide (n ≤ 13)) || decide (n = 32) || decide (n = 0x85) ||
    decide (n = 0xA0) || decide (n = 0x1680) ||
    (decide (0x2000 ≤ n) && decide (n ≤ 0x200A)) ||
    decide (n = 0x2028) || decide (n = 0x2029) || decide (n = 0x202F) ||
    decide (n = 0x205F) || decide (n = 0x3000)

/-- `read` (config_scan.go:104-127).  `ReadRune` at end of stream yields
`(0, 0, io.EOF)`, which `read` converts to `eof = true` with no error,
forcing `col` to `1` if it is still `0`; on success the position advances:
onto a new line if the previous character was a newline (remembering that
line's ending column), else one column. -/
def ConfigScanner.read (scanner : ConfigScanner) : (Char × Bool) × ConfigScanner :=
  match scanner.input[scanner.idx]? with
  | none =>
      ((Char.ofNat 0, true),
        { scanner with
            pos :=
              if scanner.pos.col = 0 then
                { line := scanner.pos.line, col := 1 }
              else scanner.pos
            canUnreadRune := false })
  | some char =>
      if scanner.lastCharLineEnd then
        ((char, false),
          { scanner with
              idx := scanner.idx + 1
              canUnreadRune := true
              lastLineEndCol := scanner.pos.col
              pos := { line := scanner.pos.line + 1, col := 1 }
              lastCharLineEnd := char == '\n' })
      else
        ((char, false),
          { scanner with
              idx := scanner.idx + 1
              canUnreadRune := true
              pos := { line := scanner.pos.line, col := scanner.pos.col + 1 }
              lastCharLineEnd := char == '\n' })

/-- `unread` (config_scan.go:129-144).  `bufio.Reader.UnreadRune` fails
(`none`) unless the most recent reader operation was a successful
`ReadRune`; otherwise the cursor steps back and the position update of the
corresponding `read` is inverted, reconstructing the prior line's ending
column from `lastLineEndCol` when stepping back across a line boundary. -/
def ConfigScanner.unread (scanner : ConfigScanner) : Option ConfigScanner :=
  if scanner.canUnreadRune = false then
    none
  else
    let t := { scanner with idx := scanner.idx - 1, canUnreadRune := false }
    if 1 < t.pos.line ∧ t.pos.col = 1 then
      some { t with
               pos := { line := t.pos.line - 1, col := t.lastLineEndCol }
               lastCharLineEnd := true }
    else
      some { t with
               pos := { line := t.pos.line, col := t.pos.col - 1 }
               lastCharLineEnd := false }

/-- `scanner.reader.Peek(1)` (used at config_scan.go:184, 243): returns the
next character without consuming it, or the `io.EOF` error (`none`) at end
of stream; either way it invalidates `UnreadRune`. -/
def ConfigScanner.peek1 (scanner : ConfigScanner) : Option Char × ConfigScanner :=
  (scanner.input[scanner.idx]?, { scanner with canUnreadRune := false })

/-- The loop of `scanWhiteSpace` (config_scan.go:232-278).  Arguments
`buffer` and `escape` are the loop's mutable locals; the result is
`(buffer, scanner)` at `break OuterLoop`/end of loop. -/
def scanWhiteSpaceLoop :
    Nat → ConfigScanner → String → Bool → Except ScanError (String × ConfigScanner)
  | 0, _, _, _ => .error .outOfFuel
  | fuel + 1, scanner, buffer, escape =>
    match scanner.read with
    | ((char, eof), s1) =>
      if eof then
        .ok (buffer, s1)
      else if char == '\\' then
        match s1.peek1 with
        | (none, _) => .error .ioEOF
        | (some next, s2) =>
          if next == '\n' then
            -- `escape = true; continue` (the `continue` skips `escape = false`)
            scanWhiteSpaceLoop fuel s2 buffer true
          else
            match s2.unread with
            | none => .error .invalidUnreadRune
            | some s3 => .ok (buffer, s3)
      else if char == '\n' then
        if !escape then
          match s1.unread with
          | none => .error .invalidUnreadRune
          | some s2 => .ok (buffer, s2)
        else
          -- escaped newline: consumed, not buffered; `escape = false` at loop end
          scanWhiteSpaceLoop fuel s1 buffer false
      else if !unicodeIsSpace char then
        match s1.unread with
        | none => .error .invalidUnreadRune
        | some s2 => .ok (buffer, s2)
      else
        scanWhiteSpaceLoop fuel s1 (buffer.push char) false

/-- `scanWhiteSpace` (config_scan.go:225-287): run the loop, then build a
`CtkWhiteSpace` token whose `endPos` is the final scanner position
(`startPos` is the Go zero value; `Scan` overwrites it). -/
def ConfigScanner.scanWhiteSpace (scanner : ConfigScanner) :
    Except ScanError (ConfigToken × ConfigScanner) :=
  match scanWhiteSpaceLoop (scanner.input.length + 1) scanner "" false with
  | .error e => .error e
  | .ok (buffer, s1) =>
      .ok ({ tokenType := .CtkWhiteSpace
             value := buffer
             startPos := { line := 0, col := 0 }
             endPos := s1.pos
             err := none }, s1)

/-- The loop of `scanToEndOfLine` (config_scan.go:302-322). -/
def scanToEndOfLineLoop :
    Nat → ConfigScanner → String → Except ScanError (String × ConfigScanner)
  | 0, _, _ => .error .outOfFuel
  | fuel + 1, scanner, buffer =>
    match scanner.read with
    | ((char, eof), s1) =>
      if eof then
        .ok (buffer, s1)
      else if char == '\n' then
        match s1.unread with
        | none => .error .invalidUnreadRune
        | some s2 => .ok (buffer, s2)
      else
        scanToEndOfLineLoop fuel s1 (buffer.push char)

/-- `scanToEndOfLine` (config_scan.go:297-331). -/
def ConfigScanner.scanToEndOfLine (scanner : ConfigScanner)
    (tokenType : ConfigTokenType) : Except ScanError (ConfigToken × ConfigScanner) :=
  match scanToEndOfLineLoop (scanner.input.length + 1) scanner "" with
  | .error e => .error e
  | .ok (buffer, s1) =>
      .ok ({ tokenType := tokenType
             value := buffer
             startPos := { line := 0, col := 0 }
             endPos := s1.pos
             err := none }, s1)

/-- `scanComment` (config_scan.go:289-291). -/
def ConfigScanner.scanComment (scanner : ConfigScanner) :
    Except ScanError (ConfigToken × ConfigScanner) :=
  scanner.scanToEndOfLine .CtkComment

/-- `scanShellCommand` (config_scan.go:293-295). -/
def ConfigScanner.scanShellCommand (scanner : ConfigScanner) :
    Except ScanError (ConfigToken × ConfigScanner) :=
  scanner.scanToEndOfLine .CtkShellCommand

/-- The loop of `scanWord` (config_scan.go:338-358). -/
def scanWordLoop :
    Nat → ConfigScanner → String → Except ScanError (String × ConfigScanner)
  | 0, _, _ => .error .outOfFuel
  | fuel + 1, scanner, buffer =>
    match scanner.read with
    | ((char, eof), s1) =>
      if eof then
        .ok (buffer, s1)
      else if unicodeIsSpace char then
        match s1.unread with
        | none => .error .invalidUnreadRune
        | some s2 => .ok (buffer, s2)
      else
        scanWordLoop fuel s1 (buffer.push char)

/-- `scanWord` (config_scan.go:333-367). -/
def ConfigScanner.scanWord (scanner : ConfigScanner) :
    Except ScanError (ConfigToken × ConfigScanner) :=
  match scanWordLoop (scanner.input.length + 1) scanner "" with
  | .error e => .error e
  | .ok (buffer, s1) =>
      .ok ({ tokenType := .CtkWord
             value := buffer
             startPos := { line := 0, col := 0 }
             endPos := s1.pos
             err := none }, s1)

/-- The loop of `scanStringWord` (config_scan.go:386-420).  The result is
`(buffer, closingQuoteFound, scanner)`. -/
def scanStringWordLoop :
    Nat → ConfigScanner → String → Bool → Except ScanError (String × Bool × ConfigScanner)
  | 0, _, _, _ => .error .outOfFuel
  | fuel + 1, scanner, buffer, escape =>
    match scanner.read with
    | ((char, eof), s1) =>
      if eof then
        .ok (buffer, false, s1)
      else if char == '\\' then
        if !escape then
          -- `escape = true; continue`
          scanStringWordLoop fuel s1 (buffer.push char) true
        else
          scanStringWordLoop fuel s1 (buffer.push char) false
      else if char == '"' then
        if !escape then
          .ok (buffer.push char, true, s1)
        else
          scanStringWordLoop fuel s1 (buffer.push char) false
      else
        scanStringWordLoop fuel s1 (buffer.push char) false

/-- The unescape loop of `processStringWord` (config_scan.go:457-475):
left to right over the interior, a backslash not already escaping arms an
escape for the next character, `n` → newline, `t` → tab, anything else
escaped → itself. -/
def processStringWordLoop : List Char → Bool → String → String
  | [], _, buffer => buffer
  | char :: rest, escape, buffer =>
    if escape then
      if char == 'n' then processStringWordLoop rest false (buffer.push '\n')
      else if char == 't' then processStringWordLoop rest false (buffer.push '\t')
      else processStringWordLoop rest false (buffer.push char)
    else if char == '\\' then processStringWordLoop rest true buffer
    else processStringWordLoop rest false (buffer.push char)

/-- `processStringWord` (config_scan.go:446-478).  The guard
`len(chars) < 2 || chars[0] != '"' || chars[len(chars)-1] != '"'` is
modelled with `head?`/`getLast?` (equivalent under the short-circuiting
length check); on failure Go returns `(str, err)` — the error case carries
`str`.  On success the interior `chars[1 : len(chars)-1]` is unescaped. -/
def processStringWord (str : String) : Except ScanError String :=
  let chars := str.data
  if chars.length < 2 ∨ chars.head? ≠ some '"' ∨ chars.getLast? ≠ some '"' then
    .error (.invalidStringWord str)
  else
    .ok (processStringWordLoop (chars.drop 1).dropLast false "")

/-- `scanStringWord` (config_scan.go:369-444).  Note the first `read`: on
end of stream it returns `(nil, nil)` — no token and no error — modelled as
`.ok (none, s1)`; every other success carries a token. -/
def ConfigScanner.scanStringWord (scanner : ConfigScanner) :
    Except ScanError (Option ConfigToken × ConfigScanner) :=
  match scanner.read with
  | ((char, eof), s1) =>
    if eof then
      .ok (none, s1)
    else
      match scanStringWordLoop (s1.input.length + 1) s1 ("".push char) false with
      | .error e => .error e
      | .ok (buffer, closingQuoteFound, s2) =>
        if closingQuoteFound then
          match processStringWord buffer with
          | .error e => .error e
          | .ok word =>
              .ok (some { tokenType := .CtkWord
                          value := word
                          startPos := { line := 0, col := 0 }
                          endPos := s2.pos
                          err := none }, s2)
        else
          .ok (some { tokenType := .CtkInvalid
                      value := buffer
                      startPos := { line := 0, col := 0 }
                      endPos := s2.pos
                      err := some "Unterminated string" }, s2)

/-- The trailing `if token != nil { token.startPos = startPos }` of `Scan`
(config_scan.go:218-220), applied to the outcome of the dispatch. -/
def stampStartPos (startPos : ConfigScannerPos) :
    Except ScanError (Option ConfigToken × ConfigScanner) →
      Except ScanError (Option ConfigToken × ConfigScanner)
  | .error e => .error e
  | .ok (none, s2) => .ok (none, s2)
  | .ok (some t, s2) => .ok (some { t with startPos := startPos }, s2)

/-- The `switch` block of `Scan` (config_scan.go:151-216), dispatching on
the character just read (`char`, with `eof` its end-of-stream flag) from
the post-read state `s1`. -/
def ConfigScanner.scanDispatch (s1 : ConfigScanner) (char : Char) (eof : Bool) :
    Except ScanError (Option ConfigToken × ConfigScanner) :=
      if eof then
        .ok (some { tokenType := .CtkEOF
                    value := ""
                    startPos := { line := 0, col := 0 }
                    endPos := s1.pos
                    err := none }, s1)
      else if char == '\n' then
        .ok (some { tokenType := .CtkTerminator
                    value := "".push char
                    startPos := { line := 0, col := 0 }
                    endPos := s1.pos
                    err := none }, s1)
      else if unicodeIsSpace char then
        match s1.unread with
        | none => .error .invalidUnreadRune
        | some s2 =>
          match s2.scanWhiteSpace with
          | .error e => .error e
          | .ok (t, s3) => .ok (some t, s3)
      else if char == '#' then
        match s1.unread with
        | none => .error .invalidUnreadRune
        | some s2 =>
          match s2.scanComment with
          | .error e => .error e
          | .ok (t, s3) => .ok (some t, s3)
      else if char == '!' || char == '@' then
        match s1.unread with
        | none => .error .invalidUnreadRune
        | some s2 =>
          match s2.scanShellCommand with
          | .error e => .error e
          | .ok (t, s3) => .ok (some t, s3)
      else if char == '-' then
        match s1.peek1 with
        | (none, _) => .error .ioEOF
        | (some next, s2) =>
          if next == '-' then
            match s2.scanWord with
            | .error e => .error e
            | .ok (t, s3) =>
              -- `if token != nil && token.tokenType != CtkInvalid { ... }`
              if t.tokenType = .CtkInvalid then
                .ok (some t, s3)
              else
                .ok (some { t with
                              tokenType := .CtkOption
                              value := "-" ++ t.value }, s3)
          else
            match s2.unread with
            | none => .error .invalidUnreadRune
            | some s3 =>
              match s3.scanWord with
              | .error e => .error e
              | .ok (t, s4) => .ok (some t, s4)
      else if char == '"' then
        match s1.unread with
        | none => .error .invalidUnreadRune
        | some s2 => s2.scanStringWord
      else
        match s1.unread with
        | none => .error .invalidUnreadRune
        | some s2 =>
          match s2.scanWord with
          | .error e => .error e
          | .ok (t, s3) => .ok (some t, s3)

/-- `Scan` (config_scan.go:146-223): read one character, capture `startPos`
(the position after that read), dispatch on the character, and finally set
the token's `startPos` (`if token != nil`).  The result carries the token
option exactly as Go's `(token *ConfigToken, err error)` pair does. -/
def ConfigScanner.Scan (scanner : ConfigScanner) :
    Except ScanError (Option ConfigToken × ConfigScanner) :=
  match scanner.read with
  | ((char, eof), s1) => stampStartPos s1.pos (s1.scanDispatch char eof)

/-! ## Observers used to state properties -/

/-- The token of one `Scan` call, if any. -/
def scanToken (scanner : ConfigScanner) : Option ConfigToken :=
  match scanner.Scan with
  | .ok (t, _) => t
  | .error _ => none

/-- The scanner state after one successful `Scan` call. -/
def scanEndState (scanner : ConfigScanner) : Option ConfigScanner :=
  match scanner.Scan with
  | .ok (_, s1) => some s1
  | .error _ => none

/-- The first two tokens of an input, when two successive `Scan` calls on a
fresh scanner both return tokens. -/
def firstTwoTokens (input : List Char) : Option (ConfigToken × ConfigToken) :=
  match (NewConfigScanner input).Scan with
  | .ok (some t1, s1) =>
    match s1.Scan with
    | .ok (some t2, _) => some (t1, t2)
    | _ => none
  | _ => none

/-- `n` further `Scan` calls after the first: `scanIter 0 s` is `s.Scan`,
and `scanIter (n+1) s` discards the first token and iterates on the
post-state. -/
def scanIter : Nat → ConfigScanner → Except ScanError (Option ConfigToken × ConfigScanner)
  | 0, scanner => scanner.Scan
  | n + 1, scanner =>
    match scanner.Scan with
    | .error e => .error e
    | .ok (_, s1) => scanIter n s1

/-- `true` exactly when the result is the hard error produced by
`processStringWord`'s failure branch. -/
def isInvalidStringWordErr :
    Except ScanError (Option ConfigToken × ConfigScanner) → Bool
  | .error (.invalidStringWord _) => true
  | _ => false

/-- Input-level characterization of the quoted-string loop's escape
automaton (config_scan.go:386-420): whether the loop, entered with escape
state `escape`, finds an unescaped `"` somewhere in `l`. -/
def containsClosing : List Char → Bool → Bool
  | [], _ => false
  | c :: rest, escape =>
    if c == '\\' then
      if !escape then containsClosing rest true else containsClosing rest false
    else if c == '"' then
      if !escape then true else containsClosing rest false
    else containsClosing rest false

/-- Input-level characterization of what the quoted-string loop appends to
its raw buffer: the characters of `l` up to and including the first
unescaped `"` (all of `l` if there is none). -/
def rawUpToClosing : List Char → Bool → List Char
  | [], _ => []
  | c :: rest, escape =>
    if c == '\\' then
      if !escape then c :: rawUpToClosing rest true else c :: rawUpToClosing rest false
    else if c == '"' then
      if !escape then [c] else c :: rawUpToClosing rest false
    else c :: rawUpToClosing rest false

/-! ## Characterizations of the reader primitives

`readEOFState`/`readNext`/`unreadBack` name the states `read` and `unread`
produce; the equations right after each prove them equal to the
corresponding branch of the source function, so every later proof can
destructure a `read`/`unread` by rewriting. -/

/-- The state `read` leaves at end of stream. -/
def ConfigScanner.readEOFState (s : ConfigScanner) : ConfigScanner :=
  { s with
      pos := if s.pos.col = 0 then { line := s.pos.line, col := 1 } else s.pos
      canUnreadRune := false }

/-- The state `read` leaves after successfully consuming `c`. -/
def ConfigScanner.readNext (s : ConfigScanner) (c : Char) : ConfigScanner :=
  if s.lastCharLineEnd then
    { s with
        idx := s.idx + 1
        canUnreadRune := true
        lastLineEndCol := s.pos.col
        pos := { line := s.pos.line + 1, col := 1 }
        lastCharLineEnd := c == '\n' }
  else
    { s with
        idx := s.idx + 1
        canUnreadRune := true
        pos := { line := s.pos.line, col := s.pos.col + 1 }
        lastCharLineEnd := c == '\n' }

/-- The state `unread` leaves when `UnreadRune` is permitted. -/
def ConfigScanner.unreadBack (s : ConfigScanner) : ConfigScanner :=
  let t := { s with idx := s.idx - 1, canUnreadRune := false }
  if 1 < t.pos.line ∧ t.pos.col = 1 then
    { t with
        pos := { line := t.pos.line - 1, col := t.lastLineEndCol }
        lastCharLineEnd := true }
  else
    { t with
        pos := { line := t.pos.line, col := t.pos.col - 1 }
        lastCharLineEnd := false }

theorem read_eq_eof {s : ConfigScanner} (h : s.input[s.idx]? = none) :
    s.read = ((Char.ofNat 0, true), s.readEOFState) := by
  unfold ConfigScanner.read ConfigScanner.readEOFState
  rw [h]

theorem read_eq_some {s : ConfigScanner} {c : Char} (h : s.input[s.idx]? = some c) :
    s.read = ((c, false), s.readNext c) := by
  unfold ConfigScanner.read ConfigScanner.readNext
  rw [h]
  dsimp only
  split <;> rfl

theorem unread_eq_none {s : ConfigScanner} (h : s.canUnreadRune = false) :
    s.unread = none := by
  simp [ConfigScanner.unread, h]

theorem unread_eq_some {s : ConfigScanner} (h : s.canUnreadRune = true) :
    s.unread = some s.unreadBack := by
  unfold ConfigScanner.unread ConfigScanner.unreadBack
  rw [h, if_neg (by simp)]
  dsimp only
  split <;> rfl

@[simp] theorem readEOFState_input (s : ConfigScanner) : s.readEOFState.input = s.input := rfl

@[simp] theorem readEOFState_idx (s : ConfigScanner) : s.readEOFState.idx = s.idx := rfl

@[simp] theorem readEOFState_canUnreadRune (s : ConfigScanner) :
    s.readEOFState.canUnreadRune = false := rfl

@[simp] theorem readNext_input (s : ConfigScanner) (c : Char) :
    (s.readNext c).input = s.input := by
  unfold ConfigScanner.readNext; split <;> rfl

@[simp] theorem readNext_idx (s : ConfigScanner) (c : Char) :
    (s.readNext c).idx = s.idx + 1 := by
  unfold ConfigScanner.readNext; split <;> rfl

@[simp] theorem readNext_canUnreadRune (s : ConfigScanner) (c : Char) :
    (s.readNext c).canUnreadRune = true := by
  unfold ConfigScanner.readNext; split <;> rfl

@[simp] theorem unreadBack_input (s : ConfigScanner) : s.unreadBack.input = s.input := by
  simp only [ConfigScanner.unreadBack]; split <;> rfl

@[simp] theorem unreadBack_idx (s : ConfigScanner) : s.unreadBack.idx = s.idx - 1 := by
  simp only [ConfigScanner.unreadBack]; split <;> rfl

@[simp] theorem unreadBack_canUnreadRune (s : ConfigScanner) :
    s.unreadBack.canUnreadRune = false := by
  simp only [ConfigScanner.unreadBack]; split <;> rfl

@[simp] theorem peek1_fst (s : ConfigScanner) : (s.peek1).1 = s.input[s.idx]? := rfl

@[simp] theorem peek1_snd_input (s : ConfigScanner) : (s.peek1).2.input = s.input := rfl

@[simp] theorem peek1_snd_idx (s : ConfigScanner) : (s.peek1).2.idx = s.idx := rfl

/-! ## List bridges between the cursor and `drop` -/

theorem getElem?_eq_head?_drop {α : Type} (l : List α) (i : Nat) :
    l[i]? = (l.drop i).head? := by
  induction i generalizing l with
  | zero => cases l <;> simp
  | succ n ih =>
    cases l with
    | nil => rfl
    | cons a t => rw [List.drop_succ_cons, List.getElem?_cons_succ]; exact ih t

theorem drop_succ_tail {α : Type} (l : List α) (i : Nat) :
    l.drop (i + 1) = (l.drop i).tail := by
  induction i generalizing l with
  | zero => cases l <;> rfl
  | succ n ih =>
    cases l with
    | nil => rfl
    | cons a t => rw [List.drop_succ_cons, List.drop_succ_cons]; exact ih t

theorem drop_eq_nil_of_getElem? {α : Type} {l : List α} {i : Nat}
    (h : l[i]? = none) : l.drop i = [] := by
  rw [getElem?_eq_head?_drop] at h
  cases hd : l.drop i with
  | nil => rfl
  | cons a t => rw [hd] at h; simp at h

theorem drop_eq_cons_of_getElem? {α : Type} {l : List α} {i : Nat} {c : α}
    (h : l[i]? = some c) : l.drop i = c :: l.drop (i + 1) := by
  rw [getElem?_eq_head?_drop] at h
  rw [drop_succ_tail]
  cases hd : l.drop i with
  | nil => rw [hd] at h; simp at h
  | cons a t => rw [hd] at h; simp at h; simp [h]

theorem lt_length_of_getElem? {α : Type} {l : List α} {i : Nat} {c : α}
    (h : l[i]? = some c) : i < l.length := by
  by_contra hcon
  have hnone : l[i]? = none := List.getElem?_eq_none (by omega)
  rw [hnone] at h
  exact Option.noConfusion h

/-! ## Loop characterizations

Each sub-scanner loop is characterized at input level: what it appends to
its buffer and where it leaves the cursor, as a function of the characters
at and after the cursor.  The sufficient-fuel bound
`input.length - idx < fuel` holds for the fuel every wrapper passes. -/

/-- `scanWord`'s loop consumes exactly the maximal run of non-whitespace
characters at the cursor (pushing the terminating whitespace back). -/
theorem scanWordLoop_spec :
    ∀ (fuel : Nat) (s : ConfigScanner) (buffer : String),
      s.input.length - s.idx < fuel →
      ∃ buf s1, scanWordLoop fuel s buffer = .ok (buf, s1) ∧
        buf.data = buffer.data ++ (s.input.drop s.idx).takeWhile (fun c => !unicodeIsSpace c) ∧
        s1.input = s.input ∧
        s1.idx = s.idx + ((s.input.drop s.idx).takeWhile (fun c => !unicodeIsSpace c)).length := by
  intro fuel
  induction fuel with
  | zero => intro s buffer h; omega
  | succ fuel ih =>
    intro s buffer h
    rcases hg : s.input[s.idx]? with _ | c
    · have hd := drop_eq_nil_of_getElem? hg
      refine ⟨buffer, s.readEOFState, ?_, ?_, ?_, ?_⟩
      · simp [scanWordLoop, read_eq_eof hg]
      · simp [hd]
      · simp
      · simp [hd]
    · have hd := drop_eq_cons_of_getElem? hg
      have hlt : s.idx < s.input.length := lt_length_of_getElem? hg
      by_cases hsp : unicodeIsSpace c
      · refine ⟨buffer, (s.readNext c).unreadBack, ?_, ?_, ?_, ?_⟩
        · simp [scanWordLoop, read_eq_some hg, hsp,
            unread_eq_some (readNext_canUnreadRune s c)]
        · simp [hd, hsp]
        · simp
        · simp [hd, hsp]
      · obtain ⟨buf, s1, heq, hdata, hin, hidx⟩ :=
          ih (s.readNext c) (buffer.push c) (by simp; omega)
        refine ⟨buf, s1, ?_, ?_, ?_, ?_⟩
        · simp [scanWordLoop, read_eq_some hg, hsp, heq]
        · rw [hdata]; simp [String.data_push, hd, hsp]
        · simpa using hin
        · rw [hidx]; simp [hd, hsp]; omega

/-- `scanToEndOfLine`'s loop consumes exactly the characters before the
next newline (pushing a found newline back). -/
theorem scanToEndOfLineLoop_spec :
    ∀ (fuel : Nat) (s : ConfigScanner) (buffer : String),
      s.input.length - s.idx < fuel →
      ∃ buf s1, scanToEndOfLineLoop fuel s buffer = .ok (buf, s1) ∧
        buf.data = buffer.data ++ (s.input.drop s.idx).takeWhile (fun c => !(c == '\n')) ∧
        s1.input = s.input ∧
        s1.idx = s.idx + ((s.input.drop s.idx).takeWhile (fun c => !(c == '\n'))).length := by
  intro fuel
  induction fuel with
  | zero => intro s buffer h; omega
  | succ fuel ih =>
    intro s buffer h
    rcases hg : s.input[s.idx]? with _ | c
    · have hd := drop_eq_nil_of_getElem? hg
      refine ⟨buffer, s.readEOFState, ?_, ?_, ?_, ?_⟩
      · simp [scanToEndOfLineLoop, read_eq_eof hg]
      · simp [hd]
      · simp
      · simp [hd]
    · have hd := drop_eq_cons_of_getElem? hg
      have hlt : s.idx < s.input.length := lt_length_of_getElem? hg
      by_cases hnl : c = '\n'
      · subst hnl
        refine ⟨buffer, (s.readNext '\n').unreadBack, ?_, ?_, ?_, ?_⟩
        · simp [scanToEndOfLineLoop, read_eq_some hg,
            unread_eq_some (readNext_canUnreadRune s '\n')]
        · simp [hd]
        · simp
        · simp [hd]
      · obtain ⟨buf, s1, heq, hdata, hin, hidx⟩ :=
          ih (s.readNext c) (buffer.push c) (by simp; omega)
        refine ⟨buf, s1, ?_, ?_, ?_, ?_⟩
        · simp [scanToEndOfLineLoop, read_eq_some hg, hnl, heq]
        · rw [hdata]; simp [String.data_push, hd, hnl]
        · simpa using hin
        · rw [hidx]; simp [hd, hnl]; omega

/-- When no unescaped closing quote remains, `scanStringWord`'s loop
consumes the whole rest of the stream verbatim and reports
`closingQuoteFound = false`. -/
theorem scanStringWordLoop_noClosing :
    ∀ (fuel : Nat) (s : ConfigScanner) (buffer : String) (escape : Bool),
      containsClosing (s.input.drop s.idx) escape = false →
      s.input.length - s.idx < fuel →
      ∃ buf s1, scanStringWordLoop fuel s buffer escape = .ok (buf, false, s1) ∧
        buf.data = buffer.data ++ s.input.drop s.idx ∧ s1.input = s.input := by
  intro fuel
  induction fuel with
  | zero => intro s buffer escape hcc h; omega
  | succ fuel ih =>
    intro s buffer escape hcc h
    rcases hg : s.input[s.idx]? with _ | c
    · have hd := drop_eq_nil_of_getElem? hg
      refine ⟨buffer, s.readEOFState, ?_, ?_, ?_⟩
      · simp [scanStringWordLoop, read_eq_eof hg]
      · simp [hd]
      · simp
    · have hd := drop_eq_cons_of_getElem? hg
      have hlt : s.idx < s.input.length := lt_length_of_getElem? hg
      rw [hd] at hcc
      simp only [containsClosing] at hcc
      by_cases hbs : c = '\\'
      · subst hbs
        cases escape with
        | false =>
          simp at hcc
          obtain ⟨buf, s1, heq, hdata, hin⟩ :=
            ih (s.readNext '\\') (buffer.push '\\') true (by simpa using hcc) (by simp; omega)
          refine ⟨buf, s1, ?_, ?_, ?_⟩
          · simp [scanStringWordLoop, read_eq_some hg, heq]
          · rw [hdata]; simp [String.data_push, hd]
          · simpa using hin
        | true =>
          simp at hcc
          obtain ⟨buf, s1, heq, hdata, hin⟩ :=
            ih (s.readNext '\\') (buffer.push '\\') false (by simpa using hcc) (by simp; omega)
          refine ⟨buf, s1, ?_, ?_, ?_⟩
          · simp [scanStringWordLoop, read_eq_some hg, heq]
          · rw [hdata]; simp [String.data_push, hd]
          · simpa using hin
      · by_cases hq : c = '"'
        · subst hq
          cases escape with
          | false => simp [hbs] at hcc
          | true =>
            simp [hbs] at hcc
            obtain ⟨buf, s1, heq, hdata, hin⟩ :=
              ih (s.readNext '"') (buffer.push '"') false (by simpa using hcc) (by simp; omega)
            refine ⟨buf, s1, ?_, ?_, ?_⟩
            · simp [scanStringWordLoop, read_eq_some hg, hbs, heq]
            · rw [hdata]; simp [String.data_push, hd]
            · simpa using hin
        · simp [hbs, hq] at hcc
          obtain ⟨buf, s1, heq, hdata, hin⟩ :=
            ih (s.readNext c) (buffer.push c) false (by simpa using hcc) (by simp; omega)
          refine ⟨buf, s1, ?_, ?_, ?_⟩
          · simp [scanStringWordLoop, read_eq_some hg, hbs, hq, heq]
          · rw [hdata]; simp [String.data_push, hd]
          · simpa using hin

/-- When an unescaped closing quote remains, `scanStringWord`'s loop
appends exactly the characters up to and including it and reports
`closingQuoteFound = true`. -/
theorem scanStringWordLoop_closing :
    ∀ (fuel : Nat) (s : ConfigScanner) (buffer : String) (escape : Bool),
      containsClosing (s.input.drop s.idx) escape = true →
      s.input.length - s.idx < fuel →
      ∃ buf s1, scanStringWordLoop fuel s buffer escape = .ok (buf, true, s1) ∧
        buf.data = buffer.data ++ rawUpToClosing (s.input.drop s.idx) escape ∧
        s1.input = s.input := by
  intro fuel
  induction fuel with
  | zero => intro s buffer escape hcc h; omega
  | succ fuel ih =>
    intro s buffer escape hcc h
    rcases hg : s.input[s.idx]? with _ | c
    · have hd := drop_eq_nil_of_getElem? hg
      rw [hd] at hcc
      simp [containsClosing] at hcc
    · have hd := drop_eq_cons_of_getElem? hg
      have hlt : s.idx < s.input.length := lt_length_of_getElem? hg
      rw [hd] at hcc
      simp only [containsClosing] at hcc
      by_cases hbs : c = '\\'
      · subst hbs
        cases escape with
        | false =>
          simp at hcc
          obtain ⟨buf, s1, heq, hdata, hin⟩ :=
            ih (s.readNext '\\') (buffer.push '\\') true (by simpa using hcc) (by simp; omega)
          refine ⟨buf, s1, ?_, ?_, ?_⟩
          · simp [scanStringWordLoop, read_eq_some hg, heq]
          · rw [hdata]; simp [String.data_push, hd, rawUpToClosing]
          · simpa using hin
        | true =>
          simp at hcc
          obtain ⟨buf, s1, heq, hdata, hin⟩ :=
            ih (s.readNext '\\') (buffer.push '\\') false (by simpa using hcc) (by simp; omega)
          refine ⟨buf, s1, ?_, ?_, ?_⟩
          · simp [scanStringWordLoop, read_eq_some hg, heq]
          · rw [hdata]; simp [String.data_push, hd, rawUpToClosing]
          · simpa using hin
      · by_cases hq : c = '"'
        · subst hq
          cases escape with
          | false =>
            refine ⟨buffer.push '"', s.readNext '"', ?_, ?_, ?_⟩
            · simp [scanStringWordLoop, read_eq_some hg, hbs]
            · simp [String.data_push, hd, rawUpToClosing, hbs]
            · simp
          | true =>
            simp [hbs] at hcc
            obtain ⟨buf, s1, heq, hdata, hin⟩ :=
              ih (s.readNext '"') (buffer.push '"') false (by simpa using hcc) (by simp; omega)
            refine ⟨buf, s1, ?_, ?_, ?_⟩
            · simp [scanStringWordLoop, read_eq_some hg, hbs, heq]
            · rw [hdata]; simp [String.data_push, hd, rawUpToClosing, hbs]
            · simpa using hin
        · simp [hbs, hq] at hcc
          obtain ⟨buf, s1, heq, hdata, hin⟩ :=
            ih (s.readNext c) (buffer.push c) false (by simpa using hcc) (by simp; omega)
          refine ⟨buf, s1, ?_, ?_, ?_⟩
          · simp [scanStringWordLoop, read_eq_some hg, hbs, hq, heq]
          · rw [hdata]; simp [String.data_push, hd, rawUpToClosing, hbs, hq]
          · simpa using hin

/-- When the escape automaton accepts, the raw text it collects ends with
the closing quote. -/
theorem getLast?_cons_of_getLast? {α : Type} {c x : α} {t : List α}
    (h : t.getLast? = some x) : (c :: t).getLast? = some x := by
  cases t with
  | nil => simp at h
  | cons a u => rw [List.getLast?_cons_cons]; exact h

/-- When the escape automaton accepts, the raw text it collects ends with
the closing quote. -/
theorem rawUpToClosing_getLast :
    ∀ (l : List Char) (escape : Bool), containsClosing l escape = true →
      (rawUpToClosing l escape).getLast? = some '"' := by
  intro l
  induction l with
  | nil => intro escape hcc; simp [containsClosing] at hcc
  | cons c rest ih =>
    intro escape hcc
    by_cases hbs : c = '\\'
    · subst hbs
      cases escape with
      | false =>
        have hcc2 : containsClosing rest true = true := hcc
        show ('\\' :: rawUpToClosing rest true).getLast? = some '"'
        exact getLast?_cons_of_getLast? (ih true hcc2)
      | true =>
        have hcc2 : containsClosing rest false = true := hcc
        show ('\\' :: rawUpToClosing rest false).getLast? = some '"'
        exact getLast?_cons_of_getLast? (ih false hcc2)
    · by_cases hq : c = '"'
      · subst hq
        cases escape with
        | false =>
          show (['"'] : List Char).getLast? = some '"'
          rfl
        | true =>
          have hcc2 : containsClosing rest false = true := hcc
          show ('"' :: rawUpToClosing rest false).getLast? = some '"'
          exact getLast?_cons_of_getLast? (ih false hcc2)
      · have hb1 : (c == '\\') = false := by simpa using hbs
        have hb2 : (c == '"') = false := by simpa using hq
        have hcc2 : containsClosing rest false = true := by
          simpa [containsClosing, hb1, hb2] using hcc
        have hgoal : rawUpToClosing (c :: rest) escape = c :: rawUpToClosing rest false := by
          simp [rawUpToClosing, hb1, hb2]
        rw [hgoal]
        exact getLast?_cons_of_getLast? (ih false hcc2)

/-- A backslash that is the last character of the stream, met inside a
whitespace run: the one-character lookahead (`Peek`) hits end of stream and
its `io.EOF` propagates as a hard error. -/
theorem scanWhiteSpaceLoop_trailing_backslash :
    ∀ (ws : List Char) (fuel : Nat) (s : ConfigScanner) (buffer : String) (escape : Bool),
      s.input.drop s.idx = ws ++ ['\\'] →
      (∀ c ∈ ws, unicodeIsSpace c = true ∧ (c == '\n') = false ∧ (c == '\\') = false) →
      ws.length < fuel →
      scanWhiteSpaceLoop fuel s buffer escape = .error .ioEOF := by
  intro ws
  induction ws with
  | nil =>
    intro fuel s buffer escape hd hws hfuel
    cases fuel with
    | zero => omega
    | succ fuel =>
      have hg : s.input[s.idx]? = some '\\' := by
        rw [getElem?_eq_head?_drop, hd]; rfl
      have hg2 : s.input[s.idx + 1]? = none := by
        rw [getElem?_eq_head?_drop, drop_succ_tail, hd]; rfl
      simp [scanWhiteSpaceLoop, read_eq_some hg, ConfigScanner.peek1, hg2]
  | cons w ws ih =>
    intro fuel s buffer escape hd hws hfuel
    cases fuel with
    | zero => omega
    | succ fuel =>
      have hg : s.input[s.idx]? = some w := by
        rw [getElem?_eq_head?_drop, hd]; rfl
      obtain ⟨hsp, hnl, hbs⟩ := hws w (by simp)
      have hd2 : s.input.drop (s.idx + 1) = ws ++ ['\\'] := by
        rw [drop_succ_tail, hd]; rfl
      have hrec := ih fuel (s.readNext w) (buffer.push w) false
        (by simpa using hd2) (fun c hc => hws c (by simp [hc])) (by simpa using hfuel)
      simp [scanWhiteSpaceLoop, read_eq_some hg, hbs, hnl, hsp, hrec]

/-- `scanWord`'s loop can only fail for lack of fuel or through
`UnreadRune` (never with the string-word error). -/
theorem scanWordLoop_error :
    ∀ (fuel : Nat) (s : ConfigScanner) (buffer : String) (e : ScanError),
      scanWordLoop fuel s buffer = .error e →
      e = .outOfFuel ∨ e = .invalidUnreadRune := by
  intro fuel
  induction fuel with
  | zero =>
    intro s buffer e h
    simp only [scanWordLoop] at h
    exact Or.inl (Except.error.inj h).symm
  | succ fuel ih =>
    intro s buffer e h
    simp only [scanWordLoop] at h
    rcases hr : s.read with ⟨⟨char, eofb⟩, s1⟩
    rw [hr] at h
    dsimp only at h
    split at h
    · exact Except.noConfusion h
    · split at h
      · split at h
        · exact Or.inr (Except.error.inj h).symm
        · exact Except.noConfusion h
      · exact ih _ _ _ h

/-- `scanToEndOfLine`'s loop can only fail for lack of fuel or through
`UnreadRune`. -/
theorem scanToEndOfLineLoop_error :
    ∀ (fuel : Nat) (s : ConfigScanner) (buffer : String) (e : ScanError),
      scanToEndOfLineLoop fuel s buffer = .error e →
      e = .outOfFuel ∨ e = .invalidUnreadRune := by
  intro fuel
  induction fuel with
  | zero =>
    intro s buffer e h
    simp only [scanToEndOfLineLoop] at h
    exact Or.inl (Except.error.inj h).symm
  | succ fuel ih =>
    intro s buffer e h
    simp only [scanToEndOfLineLoop] at h
    rcases hr : s.read with ⟨⟨char, eofb⟩, s1⟩
    rw [hr] at h
    dsimp only at h
    split at h
    · exact Except.noConfusion h
    · split at h
      · split at h
        · exact Or.inr (Except.error.inj h).symm
        · exact Except.noConfusion h
      · exact ih _ _ _ h

/-- `scanWhiteSpace`'s loop can only fail for lack of fuel, through
`UnreadRune`, or with the `io.EOF` of the lookahead. -/
theorem scanWhiteSpaceLoop_error :
    ∀ (fuel : Nat) (s : ConfigScanner) (buffer : String) (escape : Bool) (e : ScanError),
      scanWhiteSpaceLoop fuel s buffer escape = .error e →
      e = .outOfFuel ∨ e = .invalidUnreadRune ∨ e = .ioEOF := by
  intro fuel
  induction fuel with
  | zero =>
    intro s buffer escape e h
    simp only [scanWhiteSpaceLoop] at h
    exact Or.inl (Except.error.inj h).symm
  | succ fuel ih =>
    intro s buffer escape e h
    simp only [scanWhiteSpaceLoop] at h
    rcases hr : s.read with ⟨⟨char, eofb⟩, s1⟩
    rw [hr] at h
    dsimp only at h
    split at h
    · exact Except.noConfusion h
    · split at h
      · split at h
        · exact Or.inr (Or.inr (Except.error.inj h).symm)
        · split at h
          · exact ih _ _ _ _ h
          · split at h
            · exact Or.inr (Or.inl (Except.error.inj h).symm)
            · exact Except.noConfusion h
      · split at h
        · split at h
          · split at h
            · exact Or.inr (Or.inl (Except.error.inj h).symm)
            · exact Except.noConfusion h
          · exact ih _ _ _ _ h
        · split at h
          · split at h
            · exact Or.inr (Or.inl (Except.error.inj h).symm)
            · exact Except.noConfusion h
          · exact ih _ _ _ _ h

/-- `scanStringWord`'s loop can only fail for lack of fuel. -/
theorem scanStringWordLoop_error :
    ∀ (fuel : Nat) (s : ConfigScanner) (buffer : String) (escape : Bool) (e : ScanError),
      scanStringWordLoop fuel s buffer escape = .error e → e = .outOfFuel := by
  intro fuel
  induction fuel with
  | zero =>
    intro s buffer escape e h
    simp only [scanStringWordLoop] at h
    exact (Except.error.inj h).symm
  | succ fuel ih =>
    intro s buffer escape e h
    simp only [scanStringWordLoop] at h
    rcases hr : s.read with ⟨⟨char, eofb⟩, s1⟩
    rw [hr] at h
    dsimp only at h
    split at h
    · exact Except.noConfusion h
    · split at h
      · split at h
        · exact ih _ _ _ _ h
        · exact ih _ _ _ _ h
      · split at h
        · split at h
          · exact Except.noConfusion h
          · exact ih _ _ _ _ h
        · exact ih _ _ _ _ h

theorem take_push_of_take {b buf : String} {c : Char}
    (htake : buf.data.take (b.push c).data.length = (b.push c).data)
    (hlen : (b.push c).data.length < buf.data.length) :
    buf.data.take b.data.length = b.data ∧ b.data.length < buf.data.length := by
  rw [String.data_push] at htake hlen
  simp only [List.length_append, List.length_singleton] at htake hlen
  constructor
  · have h1 : buf.data.take b.data.length =
        (buf.data.take (b.data.length + 1)).take b.data.length := by
      rw [List.take_take]
      congr 1
      omega
    rw [h1, htake]
    exact List.take_left b.data [c]
  · omega

/-- A successful `closingQuoteFound = true` exit of the quoted-string loop
extends the initial buffer strictly and ends with the closing quote. -/
theorem scanStringWordLoop_found_shape :
    ∀ (fuel : Nat) (s s1 : ConfigScanner) (buffer buf : String) (escape : Bool),
      scanStringWordLoop fuel s buffer escape = .ok (buf, true, s1) →
      buf.data.getLast? = some '"' ∧ buf.data.take buffer.data.length = buffer.data ∧
        buffer.data.length < buf.data.length := by
  intro fuel
  induction fuel with
  | zero =>
    intro s s1 buffer buf escape h
    simp [scanStringWordLoop] at h
  | succ fuel ih =>
    intro s s1 buffer buf escape h
    simp only [scanStringWordLoop] at h
    rcases hr : s.read with ⟨⟨char, eofb⟩, s2⟩
    rw [hr] at h
    dsimp only at h
    split at h
    · simp at h
    · split at h
      · split at h
        · obtain ⟨h1, h2, h3⟩ := ih _ _ _ _ _ h
          exact ⟨h1, (take_push_of_take h2 h3).1, (take_push_of_take h2 h3).2⟩
        · obtain ⟨h1, h2, h3⟩ := ih _ _ _ _ _ h
          exact ⟨h1, (take_push_of_take h2 h3).1, (take_push_of_take h2 h3).2⟩
      · split at h
        · rename_i hquote
          split at h
          · simp only [Except.ok.injEq, Prod.mk.injEq] at h
            obtain ⟨hbuf, -, -⟩ := h
            have hc : char = '"' := by simpa using hquote
            subst hc
            rw [← hbuf]
            refine ⟨?_, ?_, ?_⟩
            · rw [String.data_push]
              exact List.getLast?_concat _
            · rw [String.data_push]
              exact List.take_left buffer.data ['"']
            · simp [String.data_push]
          · obtain ⟨h1, h2, h3⟩ := ih _ _ _ _ _ h
            exact ⟨h1, (take_push_of_take h2 h3).1, (take_push_of_take h2 h3).2⟩
        · obtain ⟨h1, h2, h3⟩ := ih _ _ _ _ _ h
          exact ⟨h1, (take_push_of_take h2 h3).1, (take_push_of_take h2 h3).2⟩

/-! ## Wrapper and dispatcher characterizations -/

theorem scanWhiteSpace_ok {s : ConfigScanner} {t : ConfigToken} {s1 : ConfigScanner}
    (h : s.scanWhiteSpace = .ok (t, s1)) :
    t.tokenType = .CtkWhiteSpace ∧ t.endPos = s1.pos ∧ t.err = none := by
  unfold ConfigScanner.scanWhiteSpace at h
  split at h
  · exact Except.noConfusion h
  · simp only [Except.ok.injEq, Prod.mk.injEq] at h
    obtain ⟨h1, h2⟩ := h
    subst h2
    rw [← h1]
    exact ⟨rfl, rfl, rfl⟩

theorem scanToEndOfLine_ok {s : ConfigScanner} {tt : ConfigTokenType} {t : ConfigToken}
    {s1 : ConfigScanner} (h : s.scanToEndOfLine tt = .ok (t, s1)) :
    t.tokenType = tt ∧ t.endPos = s1.pos ∧ t.err = none := by
  unfold ConfigScanner.scanToEndOfLine at h
  split at h
  · exact Except.noConfusion h
  · simp only [Except.ok.injEq, Prod.mk.injEq] at h
    obtain ⟨h1, h2⟩ := h
    subst h2
    rw [← h1]
    exact ⟨rfl, rfl, rfl⟩

theorem scanComment_ok {s : ConfigScanner} {t : ConfigToken} {s1 : ConfigScanner}
    (h : s.scanComment = .ok (t, s1)) :
    t.tokenType = .CtkComment ∧ t.endPos = s1.pos ∧ t.err = none :=
  scanToEndOfLine_ok h

theorem scanShellCommand_ok {s : ConfigScanner} {t : ConfigToken} {s1 : ConfigScanner}
    (h : s.scanShellCommand = .ok (t, s1)) :
    t.tokenType = .CtkShellCommand ∧ t.endPos = s1.pos ∧ t.err = none :=
  scanToEndOfLine_ok h

theorem scanWord_ok {s : ConfigScanner} {t : ConfigToken} {s1 : ConfigScanner}
    (h : s.scanWord = .ok (t, s1)) :
    t.tokenType = .CtkWord ∧ t.endPos = s1.pos ∧ t.err = none := by
  unfold ConfigScanner.scanWord at h
  split at h
  · exact Except.noConfusion h
  · simp only [Except.ok.injEq, Prod.mk.injEq] at h
    obtain ⟨h1, h2⟩ := h
    subst h2
    rw [← h1]
    exact ⟨rfl, rfl, rfl⟩

theorem scanStringWord_ok {s : ConfigScanner} {t : ConfigToken} {s1 : ConfigScanner}
    (h : s.scanStringWord = .ok (some t, s1)) :
    t.endPos = s1.pos ∧ (t.tokenType = .CtkWord ∨ t.tokenType = .CtkInvalid) := by
  unfold ConfigScanner.scanStringWord at h
  rcases hr : s.read with ⟨⟨char, eofb⟩, u⟩
  rw [hr] at h
  dsimp only at h
  split at h
  · simp at h
  · split at h
    · exact Except.noConfusion h
    · split at h
      · split at h
        · exact Except.noConfusion h
        · simp only [Except.ok.injEq, Prod.mk.injEq, Option.some.injEq] at h
          obtain ⟨h1, h2⟩ := h
          subst h2
          rw [← h1]
          exact ⟨rfl, Or.inl rfl⟩
      · simp only [Except.ok.injEq, Prod.mk.injEq, Option.some.injEq] at h
        obtain ⟨h1, h2⟩ := h
        subst h2
        rw [← h1]
        exact ⟨rfl, Or.inr rfl⟩

theorem stampStartPos_error {p : ConfigScannerPos}
    {r : Except ScanError (Option ConfigToken × ConfigScanner)} {e : ScanError}
    (h : stampStartPos p r = .error e) : r = .error e := by
  rcases r with e1 | ⟨t?, s2⟩
  · exact h
  · rcases t? with _ | t0 <;> simp [stampStartPos] at h

theorem stampStartPos_ok_some {p : ConfigScannerPos}
    {r : Except ScanError (Option ConfigToken × ConfigScanner)}
    {t : ConfigToken} {s2 : ConfigScanner}
    (h : stampStartPos p r = .ok (some t, s2)) :
    ∃ t0, r = .ok (some t0, s2) ∧ t = { t0 with startPos := p } := by
  rcases r with e1 | ⟨t?, s3⟩
  · exact Except.noConfusion h
  · rcases t? with _ | t0
    · simp [stampStartPos] at h
    · simp only [stampStartPos, Except.ok.injEq, Prod.mk.injEq, Option.some.injEq] at h
      obtain ⟨h1, h2⟩ := h
      subst h2
      exact ⟨t0, rfl, h1.symm⟩

/-- A token returned by `Scan` is the dispatcher's token with `startPos`
stamped to the position right after the initial read. -/
theorem scan_ok_some {s : ConfigScanner} {t : ConfigToken} {s1 : ConfigScanner}
    (h : s.Scan = .ok (some t, s1)) :
    ∃ t0, (s.read).2.scanDispatch (s.read).1.1 (s.read).1.2 = .ok (some t0, s1) ∧
      t = { t0 with startPos := (s.read).2.pos } := by
  unfold ConfigScanner.Scan at h
  dsimp only at h
  exact stampStartPos_ok_some h

/-- Dispatcher facts: the token's `endPos` is the final scanner position,
and an EOF token can only come out of the end-of-stream branch, which
returns the post-read state unchanged. -/
theorem scanDispatch_ok_some_facts {s1 : ConfigScanner} {char : Char} {eofb : Bool}
    {t : ConfigToken} {s2 : ConfigScanner}
    (h : s1.scanDispatch char eofb = .ok (some t, s2)) :
    t.endPos = s2.pos ∧ (t.tokenType = .CtkEOF → eofb = true ∧ s2 = s1) := by
  unfold ConfigScanner.scanDispatch at h
  split at h
  · rename_i heofb
    simp only [Except.ok.injEq, Prod.mk.injEq, Option.some.injEq] at h
    obtain ⟨h1, h2⟩ := h
    subst h2
    rw [← h1]
    exact ⟨rfl, fun _ => ⟨heofb, rfl⟩⟩
  · split at h
    · simp only [Except.ok.injEq, Prod.mk.injEq, Option.some.injEq] at h
      obtain ⟨h1, h2⟩ := h
      subst h2
      rw [← h1]
      exact ⟨rfl, fun habs => ConfigTokenType.noConfusion habs⟩
    · split at h
      · split at h
        · exact Except.noConfusion h
        · split at h
          · exact Except.noConfusion h
          · rename_i t0 s4 heq
            simp only [Except.ok.injEq, Prod.mk.injEq, Option.some.injEq] at h
            obtain ⟨h1, h2⟩ := h
            subst h2
            rw [← h1]
            refine ⟨(scanWhiteSpace_ok heq).2.1, fun habs => ?_⟩
            rw [(scanWhiteSpace_ok heq).1] at habs
            exact ConfigTokenType.noConfusion habs
      · split at h
        · split at h
          · exact Except.noConfusion h
          · split at h
            · exact Except.noConfusion h
            · rename_i t0 s4 heq
              simp only [Except.ok.injEq, Prod.mk.injEq, Option.some.injEq] at h
              obtain ⟨h1, h2⟩ := h
              subst h2
              rw [← h1]
              refine ⟨(scanComment_ok heq).2.1, fun habs => ?_⟩
              rw [(scanComment_ok heq).1] at habs
              exact ConfigTokenType.noConfusion habs
        · split at h
          · split at h
            · exact Except.noConfusion h
            · split at h
              · exact Except.noConfusion h
              · rename_i t0 s4 heq
                simp only [Except.ok.injEq, Prod.mk.injEq, Option.some.injEq] at h
                obtain ⟨h1, h2⟩ := h
                subst h2
                rw [← h1]
                refine ⟨(scanShellCommand_ok heq).2.1, fun habs => ?_⟩
                rw [(scanShellCommand_ok heq).1] at habs
                exact ConfigTokenType.noConfusion habs
          · split at h
            · split at h
              · exact Except.noConfusion h
              · split at h
                · split at h
                  · exact Except.noConfusion h
                  · rename_i t0 s4 heq
                    split at h
                    · simp only [Except.ok.injEq, Prod.mk.injEq, Option.some.injEq] at h
                      obtain ⟨h1, h2⟩ := h
                      subst h2
                      rw [← h1]
                      refine ⟨(scanWord_ok heq).2.1, fun habs => ?_⟩
                      rw [(scanWord_ok heq).1] at habs
                      exact ConfigTokenType.noConfusion habs
                    · simp only [Except.ok.injEq, Prod.mk.injEq, Option.some.injEq] at h
                      obtain ⟨h1, h2⟩ := h
                      subst h2
                      rw [← h1]
                      exact ⟨(scanWord_ok heq).2.1, fun habs => ConfigTokenType.noConfusion habs⟩
                · split at h
                  · exact Except.noConfusion h
                  · split at h
                    · exact Except.noConfusion h
                    · rename_i t0 s4 heq
                      simp only [Except.ok.injEq, Prod.mk.injEq, Option.some.injEq] at h
                      obtain ⟨h1, h2⟩ := h
                      subst h2
                      rw [← h1]
                      refine ⟨(scanWord_ok heq).2.1, fun habs => ?_⟩
                      rw [(scanWord_ok heq).1] at habs
                      exact ConfigTokenType.noConfusion habs
            · split at h
              · split at h
                · exact Except.noConfusion h
                · rename_i s4 heq2
                  have hfacts := scanStringWord_ok h
                  refine ⟨hfacts.1, fun habs => ?_⟩
                  rcases hfacts.2 with ht | ht <;> rw [ht] at habs <;>
                    exact ConfigTokenType.noConfusion habs
              · split at h
                · exact Except.noConfusion h
                · split at h
                  · exact Except.noConfusion h
                  · rename_i t0 s4 heq
                    simp only [Except.ok.injEq, Prod.mk.injEq, Option.some.injEq] at h
                    obtain ⟨h1, h2⟩ := h
                    subst h2
                    rw [← h1]
                    refine ⟨(scanWord_ok heq).2.1, fun habs => ?_⟩
                    rw [(scanWord_ok heq).1] at habs
                    exact ConfigTokenType.noConfusion habs

theorem scan_ok_some_startPos {s : ConfigScanner} {t : ConfigToken} {s1 : ConfigScanner}
    (h : s.Scan = .ok (some t, s1)) : t.startPos = (s.read).2.pos := by
  obtain ⟨t0, -, ht⟩ := scan_ok_some h
  rw [ht]

theorem scan_ok_some_endPos {s : ConfigScanner} {t : ConfigToken} {s1 : ConfigScanner}
    (h : s.Scan = .ok (some t, s1)) : t.endPos = s1.pos := by
  obtain ⟨t0, hd, ht⟩ := scan_ok_some h
  rw [ht]
  exact (scanDispatch_ok_some_facts hd).1

/-- One `read` either leaves the position unchanged, advances one column,
or moves to column 1 of the next line. -/
theorem read_pos_cases (s : ConfigScanner) :
    (s.read).2.pos = s.pos ∨
      (s.read).2.pos = { line := s.pos.line, col := s.pos.col + 1 } ∨
      (s.read).2.pos = { line := s.pos.line + 1, col := 1 } := by
  rcases hg : s.input[s.idx]? with _ | c
  · rw [read_eq_eof hg]
    by_cases hc : s.pos.col = 0
    · right; left
      simp [ConfigScanner.readEOFState, hc]
    · left
      simp [ConfigScanner.readEOFState, hc]
  · rw [read_eq_some hg]
    unfold ConfigScanner.readNext
    split
    · right; right; rfl
    · right; left; rfl

theorem readEOFState_col_ne (s : ConfigScanner) : s.readEOFState.pos.col ≠ 0 := by
  unfold ConfigScanner.readEOFState
  dsimp only
  split
  · simp
  · rename_i hcol
    simpa using hcol

theorem readEOFState_fixpoint {u : ConfigScanner} (hc : u.pos.col ≠ 0)
    (hcu : u.canUnreadRune = false) : u.readEOFState = u := by
  obtain ⟨input, idx, cu, ⟨L, C⟩, lce, llec⟩ := u
  simp only at hc hcu
  subst hcu
  simp [ConfigScanner.readEOFState, hc]

/-- At an exhausted stream (with the column already forced to be nonzero
and no pending `ReadRune`), `Scan` returns the EOF token and leaves the
state untouched. -/
theorem scan_at_eof {u : ConfigScanner} (hg : u.input[u.idx]? = none)
    (hc : u.pos.col ≠ 0) (hcu : u.canUnreadRune = false) :
    u.Scan = .ok (some { tokenType := .CtkEOF, value := "", startPos := u.pos,
                         endPos := u.pos, err := none }, u) := by
  have hread : u.read = ((Char.ofNat 0, true), u) := by
    rw [read_eq_eof hg, readEOFState_fixpoint hc hcu]
  unfold ConfigScanner.Scan
  rw [hread]
  rfl

/-- A `Scan` that returned an EOF token left the scanner exhausted, with a
nonzero column and no pending `ReadRune`. -/
theorem scan_eof_state {s : ConfigScanner} {t : ConfigToken} {s1 : ConfigScanner}
    (h : s.Scan = .ok (some t, s1)) (ht : t.tokenType = .CtkEOF) :
    s1.input[s1.idx]? = none ∧ s1.pos.col ≠ 0 ∧ s1.canUnreadRune = false := by
  obtain ⟨t0, hd, htt⟩ := scan_ok_some h
  have ht0 : t0.tokenType = .CtkEOF := by rw [htt] at ht; exact ht
  obtain ⟨heof, hs⟩ := (scanDispatch_ok_some_facts hd).2 ht0
  rcases hg : s.input[s.idx]? with _ | c
  · rw [read_eq_eof hg] at hs
    dsimp only at hs
    subst hs
    refine ⟨?_, readEOFState_col_ne s, readEOFState_canUnreadRune s⟩
    simp [hg]
  · rw [read_eq_some hg] at heof
    simp at heof

/-! ## The claims -/

/-- Claim C2 (corrected), counterexample: on input `a ` the first token
(`Word`, value `a`) has `endPos = (1,1)` while the second token
(`WhiteSpace`) has `startPos = (1,2)`: successive tokens' `endPos` and
`startPos` are not equal, refuting the claim as stated. -/
theorem scan_positions_counterexample :
    (firstTwoTokens "a ".data).map (fun p => (p.1.endPos, p.2.startPos)) =
      some ({ line := 1, col := 1 }, { line := 1, col := 2 }) ∧
    (({ line := 1, col := 1 } : ConfigScannerPos) == { line := 1, col := 2 }) = false :=
  ⟨rfl, rfl⟩

/-- Claim C2 (amended): for any input and any two tokens returned by two
successive `Scan` calls, the second token's `startPos` is the first
token's `endPos` advanced by the one-character read that opens the second
call: equal to it (stream exhausted), or the next column of the same line,
or column 1 of the next line. -/
theorem scan_positions_adjacent {s : ConfigScanner} {t1 t2 : ConfigToken}
    {s1 s2 : ConfigScanner}
    (h1 : s.Scan = .ok (some t1, s1)) (h2 : s1.Scan = .ok (some t2, s2)) :
    t2.startPos = t1.endPos ∨
      t2.startPos = { line := t1.endPos.line, col := t1.endPos.col + 1 } ∨
      t2.startPos = { line := t1.endPos.line + 1, col := 1 } := by
  rw [scan_ok_some_startPos h2, scan_ok_some_endPos h1]
  exact read_pos_cases s1

/-- Claim C3: a successful `read` followed by one `unread` restores the
scanner position `(line, col)` exactly — including across a line boundary —
and the next `read` returns the same character and reproduces the same
post-read state.  The two hypotheses on the position are invariants of
every reachable scanner state (`line` starts at 1 and never decreases;
`col = 0` only before anything was consumed on line 1). -/
theorem read_unread_inverts {s : ConfigScanner} {c : Char} {s1 : ConfigScanner}
    (hline : 1 ≤ s.pos.line) (hcol : s.pos.col = 0 → s.pos.line = 1)
    (h : s.read = ((c, false), s1)) :
    ∃ s2, s1.unread = some s2 ∧ s2.pos = s.pos ∧ s2.read = ((c, false), s1) := by
  rcases hg : s.input[s.idx]? with _ | c0
  · rw [read_eq_eof hg] at h
    simp at h
  · rw [read_eq_some hg] at h
    simp only [Prod.mk.injEq] at h
    obtain ⟨⟨hc0, -⟩, hs1⟩ := h
    subst hc0
    subst hs1
    obtain ⟨input, idx, cu, ⟨L, C⟩, lce, llec⟩ := s
    simp only at hline hcol hg
    refine ⟨_, unread_eq_some (readNext_canUnreadRune _ c0), ?_, ?_⟩ <;> cases lce
    · have hcond : ¬(1 < L ∧ C + 1 = 1) := by
        rintro ⟨h1, h2⟩
        have hC : C = 0 := by omega
        have := hcol hC
        omega
      have hs2 : ((⟨input, idx, cu, ⟨L, C⟩, false, llec⟩ : ConfigScanner).readNext c0).unreadBack =
          ⟨input, idx, false, ⟨L, C⟩, false, llec⟩ := by
        unfold ConfigScanner.readNext ConfigScanner.unreadBack
        simp
        intro h1 hC
        have := hcol hC
        omega
      rw [hs2]
    · have hcond : 1 < L + 1 ∧ 1 = 1 := ⟨by omega, rfl⟩
      have hs2 : ((⟨input, idx, cu, ⟨L, C⟩, true, llec⟩ : ConfigScanner).readNext c0).unreadBack =
          ⟨input, idx, false, ⟨L, C⟩, true, C⟩ := by
        unfold ConfigScanner.readNext ConfigScanner.unreadBack
        simp [hcond]
      rw [hs2]
    · have hcond : ¬(1 < L ∧ C + 1 = 1) := by
        rintro ⟨h1, h2⟩
        have hC : C = 0 := by omega
        have := hcol hC
        omega
      have hs2 : ((⟨input, idx, cu, ⟨L, C⟩, false, llec⟩ : ConfigScanner).readNext c0).unreadBack =
          ⟨input, idx, false, ⟨L, C⟩, false, llec⟩ := by
        unfold ConfigScanner.readNext ConfigScanner.unreadBack
        simp
        intro h1 hC
        have := hcol hC
        omega
      rw [hs2]
      rw [@read_eq_some ⟨input, idx, false, ⟨L, C⟩, false, llec⟩ c0 hg]
      rfl
    · have hcond : 1 < L + 1 ∧ 1 = 1 := ⟨by omega, rfl⟩
      have hs2 : ((⟨input, idx, cu, ⟨L, C⟩, true, llec⟩ : ConfigScanner).readNext c0).unreadBack =
          ⟨input, idx, false, ⟨L, C⟩, true, C⟩ := by
        unfold ConfigScanner.readNext ConfigScanner.unreadBack
        simp [hcond]
      rw [hs2]
      rw [@read_eq_some ⟨input, idx, false, ⟨L, C⟩, true, C⟩ c0 hg]
      rfl

/-- Claim C7: once `Scan` has returned an EOF token, every subsequent
`Scan` call on the same scanner returns an EOF token with no error,
indefinitely: the scanner state is a fixpoint and the `n`-th further call
returns the same EOF token for every `n`. -/
theorem scan_eof_idempotent {s : ConfigScanner} {t : ConfigToken} {s1 : ConfigScanner}
    (h : s.Scan = .ok (some t, s1)) (ht : t.tokenType = .CtkEOF) :
    ∀ n, scanIter n s1 = .ok (some ({ tokenType := .CtkEOF, value := "",
                                       startPos := s1.pos, endPos := s1.pos,
                                       err := none }), s1) := by
  obtain ⟨hg, hc, hcu⟩ := scan_eof_state h ht
  have hfix := scan_at_eof hg hc hcu
  intro n
  induction n with
  | zero => exact hfix
  | succ n ih =>
    simp only [scanIter]
    rw [hfix]
    exact ih

/-- Claim C2 witness: the amended adjacency instantiated on the input
`a ` — the whitespace token starts one column after the word token ends. -/
theorem scan_positions_adjacent_witness :
    (NewConfigScanner "a ".data).Scan =
      .ok (some ({ tokenType := .CtkWord, value := "a",
                   startPos := { line := 1, col := 1 },
                   endPos := { line := 1, col := 1 }, err := none }),
           ⟨"a ".data, 1, false, ⟨1, 1⟩, false, 0⟩) ∧
    (⟨"a ".data, 1, false, ⟨1, 1⟩, false, 0⟩ : ConfigScanner).Scan =
      .ok (some ({ tokenType := .CtkWhiteSpace, value := " ",
                   startPos := { line := 1, col := 2 },
                   endPos := { line := 1, col := 2 }, err := none }),
           ⟨"a ".data, 2, false, ⟨1, 2⟩, false, 0⟩) ∧
    (({ line := 1, col := 2 } : ConfigScannerPos) = { line := 1, col := 1 } ∨
      ({ line := 1, col := 2 } : ConfigScannerPos) = { line := 1, col := 1 + 1 } ∨
      ({ line := 1, col := 2 } : ConfigScannerPos) = { line := 1 + 1, col := 1 }) :=
  ⟨rfl, rfl,
    @scan_positions_adjacent (NewConfigScanner "a ".data)
      ⟨.CtkWord, "a", ⟨1, 1⟩, ⟨1, 1⟩, none⟩ ⟨.CtkWhiteSpace, " ", ⟨1, 2⟩, ⟨1, 2⟩, none⟩
      ⟨"a ".data, 1, false, ⟨1, 1⟩, false, 0⟩ ⟨"a ".data, 2, false, ⟨1, 2⟩, false, 0⟩
      rfl rfl⟩

/-- Claim C3 witness: reading `y` across the line boundary of
`x`-newline-`y` and unreading it restores position `(1, 2)`, and the
re-read reproduces the same result. -/
theorem read_unread_inverts_witness :
    1 ≤ (⟨['x', '\n', 'y'], 2, true, ⟨1, 2⟩, true, 0⟩ : ConfigScanner).pos.line ∧
    (⟨['x', '\n', 'y'], 2, true, ⟨1, 2⟩, true, 0⟩ : ConfigScanner).read =
      (('y', false), ⟨['x', '\n', 'y'], 3, true, ⟨2, 1⟩, false, 2⟩) ∧
    ∃ s2, (⟨['x', '\n', 'y'], 3, true, ⟨2, 1⟩, false, 2⟩ : ConfigScanner).unread = some s2 ∧
      s2.pos = (⟨['x', '\n', 'y'], 2, true, ⟨1, 2⟩, true, 0⟩ : ConfigScanner).pos ∧
      s2.read = (('y', false), ⟨['x', '\n', 'y'], 3, true, ⟨2, 1⟩, false, 2⟩) :=
  ⟨by decide, rfl,
    @read_unread_inverts ⟨['x', '\n', 'y'], 2, true, ⟨1, 2⟩, true, 0⟩ 'y'
      ⟨['x', '\n', 'y'], 3, true, ⟨2, 1⟩, false, 2⟩
      (by decide) (by intro hzero; simp at hzero) rfl⟩

/-- Claim C7 witness: on the empty input the first `Scan` returns the EOF
token and five further calls keep returning it with the state unchanged. -/
theorem scan_eof_idempotent_witness :
    (NewConfigScanner []).Scan =
      .ok (some ({ tokenType := .CtkEOF, value := "",
                   startPos := { line := 1, col := 1 },
                   endPos := { line := 1, col := 1 }, err := none }),
           ⟨[], 0, false, ⟨1, 1⟩, false, 0⟩) ∧
    scanIter 5 ⟨[], 0, false, ⟨1, 1⟩, false, 0⟩ =
      .ok (some ({ tokenType := .CtkEOF, value := "",
                   startPos := { line := 1, col := 1 },
                   endPos := { line := 1, col := 1 }, err := none }),
           ⟨[], 0, false, ⟨1, 1⟩, false, 0⟩) :=
  ⟨rfl, @scan_eof_idempotent (NewConfigScanner []) ⟨.CtkEOF, "", ⟨1, 1⟩, ⟨1, 1⟩, none⟩
    ⟨[], 0, false, ⟨1, 1⟩, false, 0⟩ rfl rfl 5⟩

/-! ## Further helpers for the remaining claims -/

@[simp] theorem peek1_snd_canUnreadRune (s : ConfigScanner) :
    (s.peek1).2.canUnreadRune = false := rfl

@[simp] theorem readNext_lastCharLineEnd (s : ConfigScanner) (c : Char) :
    (s.readNext c).lastCharLineEnd = (c == '\n') := by
  unfold ConfigScanner.readNext; split <;> rfl

theorem Scan_eq_of_getElem {s : ConfigScanner} {c : Char} (hg : s.input[s.idx]? = some c) :
    s.Scan = stampStartPos (s.readNext c).pos ((s.readNext c).scanDispatch c false) := by
  unfold ConfigScanner.Scan
  rw [read_eq_some hg]

theorem head?_of_take_one {α : Type} {l : List α} {c : α} (h : l.take 1 = [c]) :
    l.head? = some c := by
  cases l with
  | nil => simp at h
  | cons a t =>
    simp at h
    simp [h]

/-- On a buffer of length at least two delimited by quotes, the guard of
`processStringWord` passes and the interior is unescaped. -/
theorem processStringWord_ok_of_shape {buf : String}
    (hlen : 2 ≤ buf.data.length)
    (hhead : buf.data.head? = some '"')
    (hlast : buf.data.getLast? = some '"') :
    processStringWord buf =
      .ok (processStringWordLoop (buf.data.drop 1).dropLast false "") := by
  have hcond : ¬(buf.data.length < 2 ∨ buf.data.head? ≠ some '"' ∨
      buf.data.getLast? ≠ some '"') := by
    push_neg
    exact ⟨by omega, hhead, hlast⟩
  unfold processStringWord
  rw [if_neg hcond]

theorem scanWhiteSpace_error {s : ConfigScanner} {e : ScanError}
    (h : s.scanWhiteSpace = .error e) :
    e = .outOfFuel ∨ e = .invalidUnreadRune ∨ e = .ioEOF := by
  unfold ConfigScanner.scanWhiteSpace at h
  split at h
  · rename_i e2 heq
    obtain rfl : e2 = e := Except.error.inj h
    exact scanWhiteSpaceLoop_error _ _ _ _ _ heq
  · exact Except.noConfusion h

theorem scanToEndOfLine_error {s : ConfigScanner} {tt : ConfigTokenType} {e : ScanError}
    (h : s.scanToEndOfLine tt = .error e) :
    e = .outOfFuel ∨ e = .invalidUnreadRune := by
  unfold ConfigScanner.scanToEndOfLine at h
  split at h
  · rename_i e2 heq
    obtain rfl : e2 = e := Except.error.inj h
    exact scanToEndOfLineLoop_error _ _ _ _ heq
  · exact Except.noConfusion h

theorem scanWord_error {s : ConfigScanner} {e : ScanError}
    (h : s.scanWord = .error e) :
    e = .outOfFuel ∨ e = .invalidUnreadRune := by
  unfold ConfigScanner.scanWord at h
  split at h
  · rename_i e2 heq
    obtain rfl : e2 = e := Except.error.inj h
    exact scanWordLoop_error _ _ _ _ heq
  · exact Except.noConfusion h

/-- Entered on a quote, `scanStringWord` can only fail for lack of fuel:
in particular the `processStringWord` failure is unreachable, by the
buffer-shape invariant of the loop. -/
theorem scanStringWord_error {s : ConfigScanner} {e : ScanError}
    (hq : s.input[s.idx]? = some '"')
    (h : s.scanStringWord = .error e) : e = .outOfFuel := by
  unfold ConfigScanner.scanStringWord at h
  rw [read_eq_some hq] at h
  simp only [Bool.false_eq_true, if_false] at h
  split at h
  · rename_i e2 heq
    obtain rfl : e2 = e := Except.error.inj h
    exact scanStringWordLoop_error _ _ _ _ _ heq
  · rename_i buf found s2 heq
    cases found
    · simp only [Bool.false_eq_true, if_false] at h
      exact Except.noConfusion h
    · rw [if_pos rfl] at h
      split at h
      · rename_i e3 heq2
        obtain ⟨hlast, htake, hlen⟩ := scanStringWordLoop_found_shape _ _ _ _ _ _ heq
        have htake1 : buf.data.take 1 = ['"'] := htake
        have hlen1 : 1 < buf.data.length := hlen
        have hps := processStringWord_ok_of_shape (by omega) (head?_of_take_one htake1) hlast
        rw [hps] at heq2
        exact Except.noConfusion heq2
      · exact Except.noConfusion h

/-- `Scan` only returns the reader-level hard errors: the `io.EOF` of a
lookahead, `ErrInvalidUnreadRune`, or (in the embedding) fuel exhaustion —
never the string-word error. -/
theorem scan_error_cases {s : ConfigScanner} {e : ScanError} (h : s.Scan = .error e) :
    e = .ioEOF ∨ e = .invalidUnreadRune ∨ e = .outOfFuel := by
  rcases hg : s.input[s.idx]? with _ | c
  · have heq : s.Scan =
        stampStartPos s.readEOFState.pos (s.readEOFState.scanDispatch (Char.ofNat 0) true) := by
      unfold ConfigScanner.Scan
      rw [read_eq_eof hg]
    rw [heq] at h
    exact absurd h (by simp [ConfigScanner.scanDispatch, stampStartPos])
  · rw [Scan_eq_of_getElem hg] at h
    have h2 := stampStartPos_error h
    unfold ConfigScanner.scanDispatch at h2
    rw [unread_eq_some (readNext_canUnreadRune s c)] at h2
    simp only [Bool.false_eq_true, if_false] at h2
    split at h2
    · exact Except.noConfusion h2
    · split at h2
      · split at h2
        · rename_i e2 heq2
          obtain rfl : e2 = e := Except.error.inj h2
          rcases scanWhiteSpace_error heq2 with rfl | rfl | rfl
          · exact Or.inr (Or.inr rfl)
          · exact Or.inr (Or.inl rfl)
          · exact Or.inl rfl
        · exact Except.noConfusion h2
      · split at h2
        · split at h2
          · rename_i e2 heq2
            obtain rfl : e2 = e := Except.error.inj h2
            rcases scanToEndOfLine_error heq2 with rfl | rfl
            · exact Or.inr (Or.inr rfl)
            · exact Or.inr (Or.inl rfl)
          · exact Except.noConfusion h2
        · split at h2
          · split at h2
            · rename_i e2 heq2
              obtain rfl : e2 = e := Except.error.inj h2
              rcases scanToEndOfLine_error heq2 with rfl | rfl
              · exact Or.inr (Or.inr rfl)
              · exact Or.inr (Or.inl rfl)
            · exact Except.noConfusion h2
          · split at h2
            · split at h2
              · exact Or.inl (Except.error.inj h2).symm
              · split at h2
                · split at h2
                  · rename_i e2 heq2
                    obtain rfl : e2 = e := Except.error.inj h2
                    rcases scanWord_error heq2 with rfl | rfl
                    · exact Or.inr (Or.inr rfl)
                    · exact Or.inr (Or.inl rfl)
                  · split at h2
                    · exact Except.noConfusion h2
                    · exact Except.noConfusion h2
                · rename_i next s2 heqpk hnext
                  have hs2 : s2 = ((s.readNext c).peek1).2 :=
                    (congrArg Prod.snd heqpk).symm
                  rw [unread_eq_none (by rw [hs2]; rfl)] at h2
                  exact Or.inr (Or.inl (Except.error.inj h2).symm)
            · split at h2
              · rename_i hquote
                have hc : c = '"' := by simpa using hquote
                subst hc
                have hq2 : (s.readNext '"').unreadBack.input[
                    (s.readNext '"').unreadBack.idx]? = some '"' := by
                  simpa using hg
                exact Or.inr (Or.inr (scanStringWord_error hq2 h2))
              · split at h2
                · rename_i e2 heq2
                  obtain rfl : e2 = e := Except.error.inj h2
                  rcases scanWord_error heq2 with rfl | rfl
                  · exact Or.inr (Or.inr rfl)
                  · exact Or.inr (Or.inl rfl)
                · exact Except.noConfusion h2

/-- Claim C1 (corrected), counterexample: on the input `--verbose` the
token's value is `--verbose` — both dashes — not the claimed `-verbose`
with a single leading dash. -/
theorem option_token_counterexample :
    (scanToken (NewConfigScanner "--verbose".data)).map ConfigToken.value =
      some "--verbose" ∧
    ((scanToken (NewConfigScanner "--verbose".data)).map ConfigToken.value ==
      some "-verbose") = false :=
  ⟨rfl, rfl⟩

/-- Claim C1 (amended): every token produced from a source form beginning
with two dashes has kind Option and carries exactly two leading dashes in
its value: the dispatcher consumes the first dash, `scanWord` re-reads
from the second (so the scanned value already starts with `-`), and the
reclassification prepends one more `-`; the value is the two dashes
followed by the maximal non-whitespace run after them.  On `--verbose`
this is one Option token with value `--verbose` and the next `Scan`
returns EOF (see the witness). -/
theorem option_token_two_dashes {s : ConfigScanner}
    (h1 : s.input[s.idx]? = some '-') (h2 : s.input[s.idx + 1]? = some '-') :
    (scanToken s).map (fun t => (t.tokenType, t.value.data)) =
      some (.CtkOption,
        '-' :: '-' :: (s.input.drop (s.idx + 2)).takeWhile (fun c => !unicodeIsSpace c)) := by
  have hscan := Scan_eq_of_getElem h1
  rcases hpk : (s.readNext '-').peek1 with ⟨nextc, s2⟩
  have hnext : nextc = some '-' := by
    have h3 := congrArg Prod.fst hpk
    simp only [peek1_fst] at h3
    rw [← h3]
    simpa using h2
  subst hnext
  have hs2i : s2.input = s.input := by
    have h3 := congrArg Prod.snd hpk
    dsimp only at h3
    rw [← h3]
    simp
  have hs2x : s2.idx = s.idx + 1 := by
    have h3 := congrArg Prod.snd hpk
    dsimp only at h3
    rw [← h3]
    simp
  obtain ⟨buf, s3, heq, hdata, hin, hidx⟩ :=
    scanWordLoop_spec (s2.input.length + 1) s2 "" (by omega)
  have hword : s2.scanWord = .ok (⟨.CtkWord, buf, ⟨0, 0⟩, s3.pos, none⟩, s3) := by
    unfold ConfigScanner.scanWord
    rw [heq]
  have hdisp : (s.readNext '-').scanDispatch '-' false =
      .ok (some ⟨.CtkOption, "-" ++ buf, ⟨0, 0⟩, s3.pos, none⟩, s3) := by
    unfold ConfigScanner.scanDispatch
    rw [hpk]
    simp [hword, show unicodeIsSpace '-' = false from rfl]
  unfold scanToken
  rw [hscan, hdisp]
  have hdrop : s.input.drop (s.idx + 1) = '-' :: s.input.drop (s.idx + 2) :=
    drop_eq_cons_of_getElem? h2
  simp only [stampStartPos]
  simp [String.data_append, hdata, hs2i, hs2x, hdrop,
    show unicodeIsSpace '-' = false from rfl]

/-- Claim C1 witness: `--verbose` yields exactly one non-EOF token, an
Option token with value `--verbose`; the second call returns EOF. -/
theorem option_token_two_dashes_witness :
    (scanToken (NewConfigScanner "--verbose".data)).map
        (fun t => (t.tokenType, t.value.data)) =
      some (.CtkOption, "--verbose".data) ∧
    scanIter 1 (NewConfigScanner "--verbose".data) =
      .ok (some ({ tokenType := .CtkEOF, value := "",
                   startPos := { line := 1, col := 9 },
                   endPos := { line := 1, col := 9 }, err := none }),
           ⟨"--verbose".data, 9, false, ⟨1, 9⟩, false, 0⟩) :=
  ⟨@option_token_two_dashes (NewConfigScanner "--verbose".data) rfl rfl, rfl⟩

/-- Claim C4: when the quoted-string sub-scanner is entered on a `"` and
no unescaped closing quote remains before end of stream, `Scan` returns
with nil function-level error an Invalid token whose value is the raw text
collected (the opening quote plus the whole remaining input, no unescape
pass applied) and whose err field reports the unterminated string. -/
theorem unterminated_string_invalid {s : ConfigScanner}
    (h1 : s.input[s.idx]? = some '"')
    (h2 : containsClosing (s.input.drop (s.idx + 1)) false = false) :
    (scanToken s).map (fun t => (t.tokenType, t.value.data, t.err)) =
      some (.CtkInvalid, '"' :: s.input.drop (s.idx + 1), some "Unterminated string") := by
  have hscan := Scan_eq_of_getElem h1
  have hu : (s.readNext '"').unread = some (s.readNext '"').unreadBack :=
    unread_eq_some (readNext_canUnreadRune s '"')
  have hq2 : (s.readNext '"').unreadBack.input[(s.readNext '"').unreadBack.idx]? =
      some '"' := by
    simpa using h1
  obtain ⟨buf, s4, heqloop, hdata, hin⟩ := scanStringWordLoop_noClosing
    ((((s.readNext '"').unreadBack.readNext '"').input.length + 1))
    ((s.readNext '"').unreadBack.readNext '"') ("".push '"') false
    (by simpa using h2) (by simp; omega)
  have hsw : (s.readNext '"').unreadBack.scanStringWord =
      .ok (some ⟨.CtkInvalid, buf, ⟨0, 0⟩, s4.pos, some "Unterminated string"⟩, s4) := by
    unfold ConfigScanner.scanStringWord
    rw [read_eq_some hq2]
    simp only [Bool.false_eq_true, if_false]
    rw [heqloop]
    dsimp only
    simp only [Bool.false_eq_true, if_false]
  have hdisp : (s.readNext '"').scanDispatch '"' false =
      .ok (some ⟨.CtkInvalid, buf, ⟨0, 0⟩, s4.pos, some "Unterminated string"⟩, s4) := by
    unfold ConfigScanner.scanDispatch
    simp [hu, hsw, show unicodeIsSpace '"' = false from rfl]
  unfold scanToken
  rw [hscan, hdisp]
  simp only [stampStartPos, Option.map_some]
  simp [hdata]

/-- Claim C4 witness: on `"abc` (no closing quote) the one token is
Invalid with value `"abc` and the "Unterminated string" error. -/
theorem unterminated_string_invalid_witness :
    containsClosing "abc".data false = false ∧
    (scanToken (NewConfigScanner "\"abc".data)).map
        (fun t => (t.tokenType, t.value.data, t.err)) =
      some (.CtkInvalid, "\"abc".data, some "Unterminated string") :=
  ⟨rfl, @unterminated_string_invalid (NewConfigScanner "\"abc".data) rfl rfl⟩

/-- Claim C5: a quoted string terminated by an unescaped closing quote
yields a Word token whose value is the interior between the quotes decoded
left to right by the unescape pass (a backslash arms an escape for exactly
the next character, `n` → newline, `t` → tab, any other escaped character
→ itself with the backslash dropped), with no token error. -/
theorem quoted_string_decoded {s : ConfigScanner}
    (h1 : s.input[s.idx]? = some '"')
    (h2 : containsClosing (s.input.drop (s.idx + 1)) false = true) :
    (scanToken s).map (fun t => (t.tokenType, t.value, t.err)) =
      some (.CtkWord,
        processStringWordLoop
          ((rawUpToClosing (s.input.drop (s.idx + 1)) false).dropLast) false "",
        none) := by
  have hscan := Scan_eq_of_getElem h1
  have hu : (s.readNext '"').unread = some (s.readNext '"').unreadBack :=
    unread_eq_some (readNext_canUnreadRune s '"')
  have hq2 : (s.readNext '"').unreadBack.input[(s.readNext '"').unreadBack.idx]? =
      some '"' := by
    simpa using h1
  obtain ⟨buf, s4, heqloop, hdata, hin⟩ := scanStringWordLoop_closing
    ((((s.readNext '"').unreadBack.readNext '"').input.length + 1))
    ((s.readNext '"').unreadBack.readNext '"') ("".push '"') false
    (by simpa using h2) (by simp; omega)
  have hdata2 : buf.data = '"' :: rawUpToClosing (s.input.drop (s.idx + 1)) false := by
    rw [hdata]
    simp
  have hlast : (rawUpToClosing (s.input.drop (s.idx + 1)) false).getLast? = some '"' :=
    rawUpToClosing_getLast _ false h2
  have hne : rawUpToClosing (s.input.drop (s.idx + 1)) false ≠ [] := by
    intro hnil
    rw [hnil] at hlast
    simp at hlast
  have hps : processStringWord buf =
      .ok (processStringWordLoop
        ((rawUpToClosing (s.input.drop (s.idx + 1)) false).dropLast) false "") := by
    have h3 := @processStringWord_ok_of_shape buf
      (by rw [hdata2]; simp; exact List.length_pos.mpr hne)
      (by rw [hdata2]; rfl)
      (by rw [hdata2]; exact getLast?_cons_of_getLast? hlast)
    rw [h3, hdata2]
    rfl
  have hsw : (s.readNext '"').unreadBack.scanStringWord =
      .ok (some ⟨.CtkWord,
        processStringWordLoop
          ((rawUpToClosing (s.input.drop (s.idx + 1)) false).dropLast) false "",
        ⟨0, 0⟩, s4.pos, none⟩, s4) := by
    unfold ConfigScanner.scanStringWord
    rw [read_eq_some hq2]
    simp only [Bool.false_eq_true, if_false]
    rw [heqloop]
    dsimp only
    rw [if_pos rfl, hps]
  have hdisp : (s.readNext '"').scanDispatch '"' false =
      .ok (some ⟨.CtkWord,
        processStringWordLoop
          ((rawUpToClosing (s.input.drop (s.idx + 1)) false).dropLast) false "",
        ⟨0, 0⟩, s4.pos, none⟩, s4) := by
    unfold ConfigScanner.scanDispatch
    simp [hu, hsw, show unicodeIsSpace '"' = false from rfl]
  unfold scanToken
  rw [hscan, hdisp]
  simp [stampStartPos]

/-- Claim C5 witness: `"a\nb"` (literal backslash-n between quotes) yields
one Word token whose value is `a`, newline, `b`. -/
theorem quoted_string_decoded_witness :
    containsClosing "a\\nb\"".data false = true ∧
    (scanToken (NewConfigScanner "\"a\\nb\"".data)).map
        (fun t => (t.tokenType, t.value, t.err)) =
      some (.CtkWord, "a\nb", none) :=
  ⟨rfl, @quoted_string_decoded (NewConfigScanner "\"a\\nb\"".data) rfl rfl⟩

/-- Claim C6: inside the whitespace sub-scanner, a backslash immediately
followed by a newline is a line continuation: the loop consumes both
characters (the cursor advances by two), emits neither into the token
value (the buffer is passed along unchanged), and continues accumulating
whitespace within the same token — on the next line, since the consumed
newline sets `lastCharLineEnd` — rather than ending it. -/
theorem whitespace_line_continuation {fuel : Nat} {s : ConfigScanner}
    {buffer : String} {escape : Bool}
    (h1 : s.input[s.idx]? = some '\\') (h2 : s.input[s.idx + 1]? = some '\n') :
    scanWhiteSpaceLoop (fuel + 2) s buffer escape =
      scanWhiteSpaceLoop fuel ((((s.readNext '\\').peek1).2).readNext '\n') buffer false ∧
    ((((s.readNext '\\').peek1).2).readNext '\n').idx = s.idx + 2 ∧
    ((((s.readNext '\\').peek1).2).readNext '\n').input = s.input ∧
    ((((s.readNext '\\').peek1).2).readNext '\n').lastCharLineEnd = true := by
  refine ⟨?_, by simp, by simp, by simp⟩
  rcases hpk : (s.readNext '\\').peek1 with ⟨nextc, s2⟩
  have hnext : nextc = some '\n' := by
    have h3 := congrArg Prod.fst hpk
    simp only [peek1_fst] at h3
    rw [← h3]
    simpa using h2
  subst hnext
  have hg2 : s2.input[s2.idx]? = some '\n' := by
    have h3 := congrArg Prod.snd hpk
    dsimp only at h3
    rw [← h3]
    simpa using h2
  simp [scanWhiteSpaceLoop, read_eq_some h1, hpk, read_eq_some hg2]

/-- Claim C6 witness: the continuation step on the stream `\`-newline-space
at the backslash, plus, at `Scan` level, the whitespace token of
`a `-backslash-newline-`b` has value a single space — the backslash and
newline are absent from the value. -/
theorem whitespace_line_continuation_witness :
    scanWhiteSpaceLoop 5 ⟨"\\\n ".data, 0, false, ⟨1, 0⟩, false, 0⟩ "" false =
      scanWhiteSpaceLoop 3
        ((((⟨"\\\n ".data, 0, false, ⟨1, 0⟩, false, 0⟩ : ConfigScanner).readNext
          '\\').peek1).2.readNext '\n') "" false ∧
    ((((⟨"\\\n ".data, 0, false, ⟨1, 0⟩, false, 0⟩ : ConfigScanner).readNext
        '\\').peek1).2.readNext '\n').idx = 0 + 2 ∧
    ((((⟨"\\\n ".data, 0, false, ⟨1, 0⟩, false, 0⟩ : ConfigScanner).readNext
        '\\').peek1).2.readNext '\n').input = "\\\n ".data ∧
    ((((⟨"\\\n ".data, 0, false, ⟨1, 0⟩, false, 0⟩ : ConfigScanner).readNext
        '\\').peek1).2.readNext '\n').lastCharLineEnd = true ∧
    (firstTwoTokens "a \\\nb".data).map (fun p => (p.2.tokenType, p.2.value)) =
      some (.CtkWhiteSpace, " ") := by
  refine ⟨?_, ?_, ?_, ?_, rfl⟩
  · exact (@whitespace_line_continuation 3 ⟨"\\\n ".data, 0, false, ⟨1, 0⟩, false, 0⟩
      "" false rfl rfl).1
  · exact (@whitespace_line_continuation 3 ⟨"\\\n ".data, 0, false, ⟨1, 0⟩, false, 0⟩
      "" false rfl rfl).2.1
  · exact (@whitespace_line_continuation 3 ⟨"\\\n ".data, 0, false, ⟨1, 0⟩, false, 0⟩
      "" false rfl rfl).2.2.1
  · exact (@whitespace_line_continuation 3 ⟨"\\\n ".data, 0, false, ⟨1, 0⟩, false, 0⟩
      "" false rfl rfl).2.2.2

/-- Claim C8: a token triggered by `#`, `!` or `@` consumes characters
verbatim up to but excluding the next newline or end of stream: its kind
is Comment for `#` and ShellCommand for `!`/`@`, its value retains the
triggering character (it is the whole run starting at it), and a found
newline is pushed back — the cursor ends exactly at the newline. -/
theorem comment_shell_to_end_of_line {s : ConfigScanner} {c : Char}
    (h1 : s.input[s.idx]? = some c) (h2 : c = '#' ∨ c = '!' ∨ c = '@') :
    (scanToken s).map (fun t => (t.tokenType, t.value.data)) =
      some ((if c = '#' then ConfigTokenType.CtkComment else ConfigTokenType.CtkShellCommand),
        (s.input.drop s.idx).takeWhile (fun x => !(x == '\n'))) ∧
    (scanEndState s).map ConfigScanner.idx =
      some (s.idx + ((s.input.drop s.idx).takeWhile (fun x => !(x == '\n'))).length) := by
  have hscan := Scan_eq_of_getElem h1
  have hu : (s.readNext c).unread = some (s.readNext c).unreadBack :=
    unread_eq_some (readNext_canUnreadRune s c)
  obtain ⟨buf, s3, heq, hdata, hin, hidx⟩ := scanToEndOfLineLoop_spec
    ((s.readNext c).unreadBack.input.length + 1) ((s.readNext c).unreadBack) ""
    (by simp; omega)
  have hwrap : ∀ tt, (s.readNext c).unreadBack.scanToEndOfLine tt =
      .ok (⟨tt, buf, ⟨0, 0⟩, s3.pos, none⟩, s3) := by
    intro tt
    unfold ConfigScanner.scanToEndOfLine
    rw [heq]
  have hbufdata : buf.data = (s.input.drop s.idx).takeWhile (fun x => !(x == '\n')) := by
    rw [hdata]
    simp
  have hs3idx : s3.idx = s.idx + ((s.input.drop s.idx).takeWhile (fun x => !(x == '\n'))).length := by
    rw [hidx]
    simp
  rcases h2 with rfl | rfl | rfl
  · have hdisp : (s.readNext '#').scanDispatch '#' false =
        .ok (some ⟨.CtkComment, buf, ⟨0, 0⟩, s3.pos, none⟩, s3) := by
      unfold ConfigScanner.scanDispatch
      simp [hu, ConfigScanner.scanComment, hwrap,
        show unicodeIsSpace '#' = false from rfl]
    constructor
    · unfold scanToken
      rw [hscan, hdisp]
      simp [stampStartPos, hbufdata]
    · unfold scanEndState
      rw [hscan, hdisp]
      simp [stampStartPos, hs3idx]
  · have hdisp : (s.readNext '!').scanDispatch '!' false =
        .ok (some ⟨.CtkShellCommand, buf, ⟨0, 0⟩, s3.pos, none⟩, s3) := by
      unfold ConfigScanner.scanDispatch
      simp [hu, ConfigScanner.scanShellCommand, hwrap,
        show unicodeIsSpace '!' = false from rfl]
    constructor
    · unfold scanToken
      rw [hscan, hdisp]
      simp [stampStartPos, hbufdata]
    · unfold scanEndState
      rw [hscan, hdisp]
      simp [stampStartPos, hs3idx]
  · have hdisp : (s.readNext '@').scanDispatch '@' false =
        .ok (some ⟨.CtkShellCommand, buf, ⟨0, 0⟩, s3.pos, none⟩, s3) := by
      unfold ConfigScanner.scanDispatch
      simp [hu, ConfigScanner.scanShellCommand, hwrap,
        show unicodeIsSpace '@' = false from rfl]
    constructor
    · unfold scanToken
      rw [hscan, hdisp]
      simp [stampStartPos, hbufdata]
    · unfold scanEndState
      rw [hscan, hdisp]
      simp [stampStartPos, hs3idx]

/-- Claim C8 witness: `# comment` followed by a newline yields a Comment
token with value `# comment`, the cursor stops at the newline (index 9),
and the next token is a Terminator for the newline. -/
theorem comment_shell_to_end_of_line_witness :
    (scanToken (NewConfigScanner "# comment\n".data)).map
        (fun t => (t.tokenType, t.value.data)) =
      some (.CtkComment, "# comment".data) ∧
    (scanEndState (NewConfigScanner "# comment\n".data)).map ConfigScanner.idx =
      some (0 + 9) ∧
    (firstTwoTokens "# comment\n".data).map
        (fun p => (p.1.tokenType, p.1.value, p.2.tokenType, p.2.value)) =
      some (.CtkComment, "# comment", .CtkTerminator, "\n") := by
  refine ⟨?_, ?_, rfl⟩
  · exact (@comment_shell_to_end_of_line (NewConfigScanner "# comment\n".data) '#'
      rfl (Or.inl rfl)).1
  · exact (@comment_shell_to_end_of_line (NewConfigScanner "# comment\n".data) '#'
      rfl (Or.inl rfl)).2

/-- Claim C9: if the stream ends immediately after a `-` dispatch
character, `Scan` returns the hard `io.EOF` error from the one-character
lookahead and no token (neither a Word nor an EOF token); the same hard
error occurs when a backslash met inside a whitespace run is the last
character of the stream. -/
theorem lone_dash_and_trailing_backslash_hard_error :
    (∀ s : ConfigScanner, s.input[s.idx]? = some '-' → s.input[s.idx + 1]? = none →
      s.Scan = .error .ioEOF) ∧
    (∀ (s : ConfigScanner) (ws : List Char),
      s.input.drop s.idx = ws ++ ['\\'] → ws ≠ [] →
      (∀ c ∈ ws, unicodeIsSpace c = true ∧ (c == '\n') = false ∧ (c == '\\') = false) →
      s.Scan = .error .ioEOF) := by
  constructor
  · intro s hg hnone
    rw [Scan_eq_of_getElem hg]
    have hpk : (s.readNext '-').peek1 =
        (none, { s.readNext '-' with canUnreadRune := false }) := by
      unfold ConfigScanner.peek1
      rw [show (s.readNext '-').input[(s.readNext '-').idx]? = none from by simpa using hnone]
    unfold ConfigScanner.scanDispatch
    simp [hpk, stampStartPos, show unicodeIsSpace '-' = false from rfl]
  · intro s ws hd hne hws
    obtain ⟨w, ws2, rfl⟩ : ∃ w ws2, ws = w :: ws2 := by
      cases ws with
      | nil => exact absurd rfl hne
      | cons a t => exact ⟨a, t, rfl⟩
    have hg : s.input[s.idx]? = some w := by
      rw [getElem?_eq_head?_drop, hd]
      rfl
    obtain ⟨hsp, hnl, hbs⟩ := hws w (by simp)
    rw [Scan_eq_of_getElem hg]
    have hu : (s.readNext w).unread = some (s.readNext w).unreadBack :=
      unread_eq_some (readNext_canUnreadRune s w)
    have hd2 : (s.readNext w).unreadBack.input.drop ((s.readNext w).unreadBack.idx) =
        (w :: ws2) ++ ['\\'] := by
      simpa using hd
    have hfuel : (w :: ws2).length < (s.readNext w).unreadBack.input.length + 1 := by
      have hlen : (s.input.drop s.idx).length = s.input.length - s.idx :=
        List.length_drop _ _
      rw [hd] at hlen
      simp at hlen ⊢
      omega
    have hloop := scanWhiteSpaceLoop_trailing_backslash (w :: ws2)
      ((s.readNext w).unreadBack.input.length + 1) ((s.readNext w).unreadBack) "" false
      hd2 hws hfuel
    have hwrap : (s.readNext w).unreadBack.scanWhiteSpace = .error .ioEOF := by
      unfold ConfigScanner.scanWhiteSpace
      rw [hloop]
    unfold ConfigScanner.scanDispatch
    simp [hnl, hsp, hu, hwrap, stampStartPos]

/-- Claim C9 witness: on the input `-` and on the input of a space
followed by a final backslash, `Scan` returns the `io.EOF` hard error. -/
theorem lone_dash_and_trailing_backslash_hard_error_witness :
    (NewConfigScanner ['-']).Scan = .error .ioEOF ∧
    (NewConfigScanner [' ', '\\']).Scan = .error .ioEOF :=
  ⟨lone_dash_and_trailing_backslash_hard_error.1 (NewConfigScanner ['-']) rfl rfl,
   lone_dash_and_trailing_backslash_hard_error.2 (NewConfigScanner [' ', '\\']) [' ']
     rfl (by simp) (by decide)⟩

/-- Claim C10: whenever the quoted-string loop finds an unescaped closing
quote, the raw buffer extends the initial buffer (for `scanStringWord` the
opening `"` alone) and ends with `"` — so it has at least two characters
and starts and ends with `"`, the guard of `processStringWord` passes, and
`Scan` never returns the "Invalid string word" error. -/
theorem invalid_string_word_unreachable :
    (∀ (fuel : Nat) (s s1 : ConfigScanner) (buffer buf : String) (escape : Bool),
      scanStringWordLoop fuel s buffer escape = .ok (buf, true, s1) →
      buf.data.getLast? = some '"' ∧ buf.data.take buffer.data.length = buffer.data ∧
        buffer.data.length < buf.data.length) ∧
    (∀ s : ConfigScanner, isInvalidStringWordErr s.Scan = false) := by
  refine ⟨scanStringWordLoop_found_shape, ?_⟩
  intro s
  rcases hres : s.Scan with e | pr
  · rcases scan_error_cases hres with rfl | rfl | rfl <;> rfl
  · rfl

/-- Claim C10 witness: a concrete closing-quote loop exit (on `"a"`, the
raw buffer is `"a"`: ends with `"`, extends the opening-quote buffer), and
the no-"Invalid string word"-error fact at a concrete scanner. -/
theorem invalid_string_word_unreachable_witness :
    scanStringWordLoop 3 ⟨"a\"".data, 0, false, ⟨1, 1⟩, false, 0⟩ "\"" false =
      .ok ("\"a\"", true, ⟨"a\"".data, 2, true, ⟨1, 3⟩, false, 0⟩) ∧
    ("\"a\"".data.getLast? = some '"' ∧
      "\"a\"".data.take "\"".data.length = "\"".data ∧
      "\"".data.length < "\"a\"".data.length) ∧
    isInvalidStringWordErr (NewConfigScanner "\"a\"".data).Scan = false := by
  refine ⟨rfl, ?_, invalid_string_word_unreachable.2 (NewConfigScanner "\"a\"".data)⟩
  exact invalid_string_word_unreachable.1 3 ⟨"a\"".data, 0, false, ⟨1, 1⟩, false, 0⟩
    ⟨"a\"".data, 2, true, ⟨1, 3⟩, false, 0⟩ "\"" "\"a\"" false rfl

end GrvConfigScan
